import Mathlib

/-!
# go-alice-chess-tcell: board geometry and rendering

A shallow embedding of `src/main.go`.

Conventions of the embedding.

* Go's `int` is `Int`: every quantity here is a terminal coordinate, a scale or a
  loop counter, far from the 64-bit range, and wrap-around is not modelled.  Go's
  `/` and `%` truncate toward zero: `Int.tdiv`, `Int.tmod`.
* A `rune` is its code point, a `Nat`.
* The display (`tcell.Screen`) is one shared state: `main` hands the same screen
  to both `NewBoard` calls and to `NewSession`, so `Session.Screen`,
  `Board1.Screen` and `Board2.Screen` are the same handle.  The embedding keeps
  that single screen in the session; board methods take it and return it.
* The display has a cell at every coordinate: the size of the terminal, beyond
  which the display library drops writes, is not modelled.
* A counted `for` loop is a left fold of its body over the list of its indices.
* The rules engine (`chess.Game`, `chess.Move`), the display library and the rune
  widths are collaborators outside the repository; they are modelled from the
  interface the specification gives them.
-/

namespace AliceChess

/-! ## Collaborators: colours, styles, the display, the rules engine -/

/-- Modelled from the spec: a colour of the display collaborator (`tcell.Color`),
a number. -/
abbrev Color := Int

/-- Modelled from the spec: `tcell.ColorDefault`, the colour of an unset role. -/
def ColorDefault : Color := -1

/-- Modelled from the spec: a style of the display collaborator (`tcell.Style`),
"a display attribute bundle (foreground colour, background colour, emphasis)". -/
structure Style where
  fg : Color
  bg : Color
  bold : Bool
deriving DecidableEq, Repr

/-- Modelled from the spec: `tcell.StyleDefault`. -/
def StyleDefault : Style := ⟨ColorDefault, ColorDefault, false⟩

/-- Modelled from the spec: `Style.Foreground`, the same style with another
foreground colour. -/
def Style.Foreground (s : Style) (c : Color) : Style := { s with fg := c }

/-- Modelled from the spec: `Style.Background`, the same style with another
background colour. -/
def Style.Background (s : Style) (c : Color) : Style := { s with bg := c }

/-- Modelled from the spec: `Style.Bold`, the same style with the emphasis set. -/
def Style.Bold (s : Style) (b : Bool) : Style := { s with bold := b }

/-- Modelled from the spec: what the display holds in one cell: the glyph, its
combining glyphs and the style (`GetCell(x, y) → (glyph, combiningGlyphs, style)`). -/
structure Cell where
  mainc : Nat
  combc : List Nat
  style : Style
deriving DecidableEq, Repr

/-- Modelled from the spec: the display collaborator's cell grid, one cell per
coordinate. -/
abbrev Screen := Int → Int → Cell

/-- Modelled from the spec: `SetCell(x, y, glyph, combiningGlyphs, style)` of the
display collaborator (`Screen.SetContent`). -/
def SetContent (s : Screen) (x y : Int) (mainc : Nat) (combc : List Nat) (style : Style) :
    Screen :=
  fun x' y' => if x' = x ∧ y' = y then ⟨mainc, combc, style⟩ else s x' y'

/-- Modelled from the spec: `GetCell(x, y)` of the display collaborator
(`Screen.GetContent`). -/
def GetContent (s : Screen) (x y : Int) : Cell := s x y

/-- Modelled from the spec: a square of the rules-engine collaborator
(`chess.Square`), file and rank both counted from 0 (file `a` = 0, rank `1` = 0). -/
structure Square where
  file : Fin 8
  rank : Fin 8
deriving DecidableEq, Repr

/-- Modelled from the spec: `chess.File.String`, the file letter. -/
def File.String (f : Fin 8) : String :=
  match f with
  | 0 => "a" | 1 => "b" | 2 => "c" | 3 => "d" | 4 => "e" | 5 => "f" | 6 => "g" | 7 => "h"

/-- Modelled from the spec: `chess.Rank.String`, the rank digit. -/
def Rank.String (r : Fin 8) : String :=
  match r with
  | 0 => "1" | 1 => "2" | 2 => "3" | 3 => "4" | 4 => "5" | 5 => "6" | 6 => "7" | 7 => "8"

/-- Modelled from the spec: the move record of the rules-engine collaborator:
"origin square, destination square". -/
structure Move where
  S1 : Square
  S2 : Square
deriving DecidableEq, Repr

/-- Modelled from the spec: a game-state handle of the rules-engine collaborator
(`chess.Game`), as the position it was created with and the moves applied to it
since. -/
structure Game where
  start : String
  moves : List Move
deriving DecidableEq, Repr

/-- Modelled from the spec: `chess.NewGame()`, the standard initial position with
no move applied. -/
def NewGame : Game := ⟨"rnbqkbnr/pppppppp/8/8/8/8/PPPPPPPP/RNBQKBNR w KQkq - 0 1", []⟩

/-- Modelled from the spec: `chess.NewGame(fen)`, a game that starts from the
position `fen`. -/
def NewGameFEN (fen : String) : Game := ⟨fen, []⟩

/-- Modelled from the spec: `Game.Move`, `ApplyMove(gameState, move)`, for a move
the engine accepts. -/
def Game.Move (g : Game) (m : Move) : Game := { g with moves := g.moves ++ [m] }

/-! ## Loops and maps -/

/-- The loop `for i := lo; i <= hi; i++ { body }` over a state. -/
def forLoop {σ : Type} (lo hi : Int) (body : Int → σ → σ) (s : σ) : σ :=
  (List.range (hi + 1 - lo).toNat).foldl (fun acc (k : Nat) => body (lo + (k : Int)) acc) s

/-- A position on the display (`Position`). -/
structure Position where
  XPos : Int
  YPos : Int
deriving DecidableEq, Repr

/-- A Go `map[string]Position`: the entries, at most one per key. -/
abbrev SquareMap := List (String × Position)

/-- The assignment `m[k] = v`: an entry under `k` is replaced. -/
def SquareMap.set (m : SquareMap) (k : String) (v : Position) : SquareMap :=
  (k, v) :: m.filter (fun e => decide (e.1 ≠ k))

/-- The entry under `k`, when there is one. -/
def SquareMap.find? (m : SquareMap) (k : String) : Option Position :=
  (List.find? (fun e => decide (e.1 = k)) m).map Prod.snd

/-- The read `m[k]`: the entry under `k`, the zero `Position` when there is none. -/
def SquareMap.get (m : SquareMap) (k : String) : Position :=
  (SquareMap.find? m k).getD ⟨0, 0⟩

/-- The keys of the map. -/
def SquareMap.keys (m : SquareMap) : List String := m.map Prod.fst

/-! ## The program -/

/-- The piece kinds (`Piece`). -/
inductive Piece where
  | King | Queen | Rook | Bishop | Knight | Pawn | Empty
deriving DecidableEq, Repr

/-- `Piece.WhiteRune`. -/
def Piece.WhiteRune : Piece → Nat
  | .King => 0x2654 | .Queen => 0x2655 | .Rook => 0x2656 | .Bishop => 0x2657
  | .Knight => 0x2658 | .Pawn => 0x2659 | .Empty => 0x20

/-- `Piece.BlackRune`. -/
def Piece.BlackRune : Piece → Nat
  | .King => 0x265a | .Queen => 0x265b | .Rook => 0x265c | .Bishop => 0x265d
  | .Knight => 0x265e | .Pawn => 0x265f | .Empty => 0x20

/-- A file index (`Column`), `CA` = 0 to `CH` = 7. -/
abbrev Column := Int

/-- A row index (`Row`), `R8` = 0 to `R1` = 7. -/
abbrev Row := Int

/-- The element `table[i]` of a Go array or slice.  Outside the table Go panics; here the
read gives `d`. -/
def index {α : Type} (table : List α) (i : Int) (d : α) : α :=
  if i < 0 then d else table.getD i.toNat d

/-- `Column.UpperRune`. -/
def Column.UpperRune (c : Column) : Nat :=
  index [0x41, 0x42, 0x43, 0x44, 0x45, 0x46, 0x47, 0x48] c 0

/-- `Column.LowerRune`. -/
def Column.LowerRune (c : Column) : Nat :=
  index [0x61, 0x62, 0x63, 0x64, 0x65, 0x66, 0x67, 0x68] c 0

/-- `Row.Rune`. -/
def Row.Rune (r : Row) : Nat :=
  index [0x38, 0x37, 0x36, 0x35, 0x34, 0x33, 0x32, 0x31] r 0

/-- `Column.UpperString`. -/
def Column.UpperString (c : Column) : String :=
  index ["A", "B", "C", "D", "E", "F", "G", "H"] c ""

/-- `Column.LowerString`. -/
def Column.LowerString (c : Column) : String :=
  index ["a", "b", "c", "d", "e", "f", "g", "h"] c ""

/-- `Row.String`. -/
def Row.String (r : Row) : String :=
  index ["8", "7", "6", "5", "4", "3", "2", "1"] r ""

/-- `StartingRow`. -/
def StartingRow : List Piece :=
  [.Rook, .Knight, .Bishop, .Queen, .King, .Bishop, .Knight, .Rook]

/-- `StartingRow[i]`. -/
def StartingRowAt (i : Int) : Piece := index StartingRow i .Empty

/-- `ColourScheme`. -/
structure ColourScheme where
  ScreenText : Color
  ScreenBackground : Color
  LightSquare : Color
  DarkSquare : Color
  WhitePiece : Color
  BlackPiece : Color
  MenuText : Color
  MenuBackground : Color
  InstructionText : Color
  InstructionBackground : Color
deriving DecidableEq, Repr

/-- `StyleScheme`. -/
structure StyleScheme where
  Default : Style
  WhiteOnLight : Style
  WhiteOnDark : Style
  BlackOnLight : Style
  BlackOnDark : Style
  WritingMenu : Style
  WritingInstruction : Style
deriving DecidableEq, Repr

/-- `NewStyleScheme`. -/
def NewStyleScheme (cs : ColourScheme) : StyleScheme where
  Default := (StyleDefault.Foreground cs.ScreenText).Background cs.ScreenBackground
  WhiteOnLight := (StyleDefault.Foreground cs.WhitePiece).Background cs.LightSquare
  WhiteOnDark := (StyleDefault.Foreground cs.WhitePiece).Background cs.DarkSquare
  BlackOnLight := (StyleDefault.Foreground cs.BlackPiece).Background cs.LightSquare
  BlackOnDark := (StyleDefault.Foreground cs.BlackPiece).Background cs.DarkSquare
  WritingMenu := ((StyleDefault.Foreground cs.MenuText).Background cs.MenuBackground).Bold true
  WritingInstruction :=
    (StyleDefault.Foreground cs.InstructionText).Background cs.InstructionBackground

/-- `Board`, without its handle on the shared screen. -/
structure Board where
  XPos : Int
  YPos : Int
  XScale : Int
  YScale : Int
  ColourScheme : ColourScheme
  StyleScheme : StyleScheme
  Squares : SquareMap

/-- `Session`; `Screen` is the state of the one display. -/
structure Session where
  Board1 : Board
  Board2 : Board
  Game1 : Game
  Game2 : Game
  Screen : Screen
  ColourScheme : ColourScheme
  StyleScheme : StyleScheme

/-- `NewSession`. -/
def NewSession (b1 b2 : Board) (g1 g2 : Game) (s : Screen) (cScheme : ColourScheme)
    (stScheme : StyleScheme) : Session :=
  ⟨b1, b2, g1, g2, s, cScheme, stScheme⟩

/-- The key `Column(col).LowerString() + Row(row).String()` of `NewBoard`. -/
def squareName (col row : Int) : String :=
  Column.LowerString col ++ Row.String row

/-- The map `squares` that `NewBoard` fills. -/
def NewBoard.squares (x y xScale yScale : Int) : SquareMap :=
  forLoop 0 7 (fun row squares =>
    forLoop 0 7 (fun col squares =>
      squares.set (squareName col row)
        ⟨x + ((col + 1) * xScale), y + ((row + 1) * yScale)⟩) squares) []

/-- The map `squares` of `NewBoard` when its loops reach the assignment of row `row` and
column `col`: the rows before `row` are done and, in row `row`, the columns before `col`. -/
def NewBoard.squaresBefore (x y xScale yScale row col : Int) : SquareMap :=
  forLoop 0 (col - 1) (fun col squares =>
      squares.set (squareName col row)
        ⟨x + ((col + 1) * xScale), y + ((row + 1) * yScale)⟩)
    (forLoop 0 (row - 1) (fun row squares =>
      forLoop 0 7 (fun col squares =>
        squares.set (squareName col row)
          ⟨x + ((col + 1) * xScale), y + ((row + 1) * yScale)⟩) squares) [])

/-- `NewBoard`. -/
def NewBoard (x y xScale yScale : Int) (cScheme : ColourScheme) (stScheme : StyleScheme) :
    Board :=
  ⟨x, y, xScale, yScale, cScheme, stScheme, NewBoard.squares x y xScale yScale⟩

/-- `Abs`. -/
def Abs (x : Int) : Int := if x < 0 then -x else x

/-- `Board.LightSquare`.  Go panics on a zero scale; `Clear` and `Fill` call it
only inside loops that run when both scales are at least 1. -/
def Board.LightSquare (b : Board) (col row : Int) : Bool :=
  if Int.tmod (Abs (Int.tdiv col b.XScale - Int.tdiv row b.YScale)) 2 = 0 then true else false

/-- One square of the first loop nest of `Board.Clear`: the `XScale` by `YScale` cells of
the square at `col`, `row`, light or dark. -/
def Board.Clear.square (b : Board) (col row : Int) (s : Screen) : Screen :=
  if b.LightSquare col row then
    forLoop 0 (b.XScale - 1) (fun scCol s =>
      forLoop 0 (b.YScale - 1) (fun scRow s =>
        SetContent s (b.XPos + col + scCol) (b.YPos + row + scRow)
          Piece.Empty.WhiteRune [] b.StyleScheme.WhiteOnLight) s) s
  else
    forLoop 0 (b.XScale - 1) (fun scCol s =>
      forLoop 0 (b.YScale - 1) (fun scRow s =>
        SetContent s (b.XPos + col + scCol) (b.YPos + row + scRow)
          Piece.Empty.BlackRune [] b.StyleScheme.WhiteOnDark) s) s

/-- The first loop nest of `Board.Clear`: the empty squares. -/
def Board.Clear.squares (b : Board) (s : Screen) : Screen :=
  forLoop 1 (8 * b.XScale) (fun col s =>
    forLoop 1 (8 * b.YScale) (fun row s =>
      if Int.tmod col b.XScale = 0 ∧ Int.tmod row b.YScale = 0 then
        Board.Clear.square b col row s
      else s) s) s

/-- The second loop of `Board.Clear`: the file labels. -/
def Board.Clear.files (b : Board) (s : Screen) : Screen :=
  forLoop 1 (8 * b.XScale) (fun col s =>
    if Int.tmod col b.XScale = 0 then
      SetContent s (b.XPos + col) (b.YPos + 9 * b.YScale)
        (Column.UpperRune (Int.tdiv (col - 1) b.XScale)) [] b.StyleScheme.Default
    else s) s

/-- The third loop of `Board.Clear`: the rank labels. -/
def Board.Clear.ranks (b : Board) (s : Screen) : Screen :=
  forLoop 1 (8 * b.YScale) (fun row s =>
    if Int.tmod row b.YScale = 0 then
      SetContent s b.XPos (b.YPos + row)
        (Row.Rune (Int.tdiv (row - 1) b.YScale)) [] b.StyleScheme.Default
    else s) s

/-- `Board.Clear`. -/
def Board.Clear (b : Board) (s : Screen) : Screen :=
  Board.Clear.ranks b (Board.Clear.files b (Board.Clear.squares b s))

/-- One square of `Board.Fill`: the `switch row` with its four cases, tried in
order. -/
def Board.Fill.square (b : Board) (col row : Int) (s : Screen) : Screen :=
  if row = 1 then
    if b.LightSquare col row then
      SetContent s (b.XPos + col) (b.YPos + row)
        (StartingRowAt (Int.tdiv (col - 1) b.XScale)).BlackRune [] b.StyleScheme.BlackOnLight
    else
      SetContent s (b.XPos + col) (b.YPos + row)
        (StartingRowAt (Int.tdiv (col - 1) b.XScale)).BlackRune [] b.StyleScheme.BlackOnDark
  else if row = 2 * b.YScale then
    if b.LightSquare col row then
      SetContent s (b.XPos + col) (b.YPos + row) Piece.Pawn.BlackRune [] b.StyleScheme.BlackOnLight
    else
      SetContent s (b.XPos + col) (b.YPos + row) Piece.Pawn.BlackRune [] b.StyleScheme.BlackOnDark
  else if row = 7 * b.YScale then
    if b.LightSquare col row then
      SetContent s (b.XPos + col) (b.YPos + row) Piece.Pawn.WhiteRune [] b.StyleScheme.WhiteOnLight
    else
      SetContent s (b.XPos + col) (b.YPos + row) Piece.Pawn.WhiteRune [] b.StyleScheme.WhiteOnDark
  else if row = 8 * b.YScale then
    if b.LightSquare col row then
      SetContent s (b.XPos + col) (b.YPos + row)
        (StartingRowAt (Int.tdiv (col - 1) b.XScale)).WhiteRune [] b.StyleScheme.WhiteOnLight
    else
      SetContent s (b.XPos + col) (b.YPos + row)
        (StartingRowAt (Int.tdiv (col - 1) b.XScale)).WhiteRune [] b.StyleScheme.WhiteOnDark
  else s

/-- `Board.Fill`. -/
def Board.Fill (b : Board) (s : Screen) : Screen :=
  forLoop 1 (8 * b.XScale) (fun col s =>
    forLoop 1 (8 * b.YScale) (fun row s =>
      if Int.tmod col b.XScale = 0 ∧ Int.tmod row b.YScale = 0 then
        Board.Fill.square b col row s
      else s) s) s

/-- `EmitStr`; `RuneWidth` is `runewidth.RuneWidth`, the number of cells a rune
takes, a function of the go-runewidth library. -/
def EmitStr (RuneWidth : Nat → Int) (s : Screen) (x y : Int) (style : Style) (str : String) :
    Screen :=
  (str.toList.foldl (fun (acc : Screen × Int) ch =>
    let c := ch.toNat
    let w := RuneWidth c
    if w = 0 then (SetContent acc.1 acc.2 y 0x20 [c] style, acc.2 + 1)
    else (SetContent acc.1 acc.2 y c [] style, acc.2 + w)) (s, x)).1

/-- `Session.Start`. -/
def Session.Start (RuneWidth : Nat → Int) (g : Session) : Session :=
  let s1 := g.Board1.Clear g.Screen
  let s2 := g.Board2.Clear s1
  let s3 := g.Board1.Fill s2
  let s4 := EmitStr RuneWidth s3 (g.Board1.XPos + g.Board1.XScale)
    (g.Board1.YPos + 11 * g.Board1.YScale) g.StyleScheme.WritingInstruction "White to move."
  { g with Screen := s4 }

/-- `Session.Move1to2`. -/
def Session.Move1to2 (g : Session) (move : Move) (turn : Int) : Session :=
  let colFrom := move.S1.file
  let rowFrom := move.S1.rank
  let colTo := move.S2.file
  let rowTo := move.S2.rank
  let pos1 := g.Board1.Squares.get (File.String colFrom ++ Rank.String rowFrom)
  let pos2 := g.Board2.Squares.get (File.String colTo ++ Rank.String rowTo)
  let c1 := GetContent g.Screen pos1.XPos pos1.YPos
  let piece := c1.mainc
  let st1 := c1.style
  let s1 := SetContent g.Screen pos1.XPos pos1.YPos Piece.Empty.WhiteRune [] st1
  let st2 := (GetContent s1 pos2.XPos pos2.YPos).style
  let st2 :=
    if Int.tmod turn 2 = 0 then st2.Foreground g.ColourScheme.BlackPiece
    else st2.Foreground g.ColourScheme.WhitePiece
  { g with Screen := SetContent s1 pos2.XPos pos2.YPos piece [] st2 }

/-- `Session.PlayRandomTurns`.  `ValidMoves` is the engine's list of legal moves of
a game and `Intn turn n` the number `rand.Intn(n)` draws in turn `turn`; with no
legal move the index panics: `none`. -/
def Session.PlayRandomTurns (ValidMoves : Game → List Move) (Intn : Int → Nat → Nat)
    (s : Session) (turns : Int) : Option Session :=
  forLoop 1 turns (fun turn acc =>
    acc.bind (fun s =>
      let moves := ValidMoves s.Game1
      (moves.get? (Intn turn moves.length)).map (fun move =>
        Session.Move1to2 { s with Game1 := s.Game1.Move move } move turn))) (some s)

/-- The file and row index a two-letter square name stands for. -/
def decodeName (s : String) : Int × Int :=
  match s.data with
  | [a, b] => ((a.toNat : Int) - 97, 56 - (b.toNat : Int))
  | _ => (0, 0)

/-- What holds of the map `squares` of `NewBoard` when the rows before `row` and, in
row `row`, the columns before `col` are done. -/
def squaresInv (row col : Int) (m : SquareMap) : Prop :=
  m.keys.Nodup ∧ (m.length : Int) = 8 * row + col ∧
    ∀ k, k ∈ m.keys ↔
      (∃ c r, 0 ≤ c ∧ c ≤ 7 ∧ 0 ≤ r ∧ r < row ∧ k = squareName c r) ∨
      (∃ c, 0 ≤ c ∧ c < col ∧ k = squareName c row)

/-- A colour scheme to run the program on: ten distinct colour numbers. -/
def sampleColours : ColourScheme := ⟨15, 47, 215, 94, 231, 16, 67, 7, 29, 8⟩

/-- The screen before anything is drawn: every cell holds nothing, in the default style. -/
def blankScreen : Screen := fun _ _ => ⟨0x20, [], StyleDefault⟩

/-- The position `g.Board1.Squares[colFrom.String()+rowFrom.String()]` that `Move1to2`
reads for the origin square of a move. -/
def Session.originPosition (g : Session) (move : Move) : Position :=
  g.Board1.Squares.get (File.String move.S1.file ++ Rank.String move.S1.rank)

/-- The position `g.Board2.Squares[colTo.String()+rowTo.String()]` that `Move1to2` reads
for the destination square of a move. -/
def Session.destinationPosition (g : Session) (move : Move) : Position :=
  g.Board2.Squares.get (File.String move.S2.file ++ Rank.String move.S2.rank)

/-- The session `main` builds, for any origin and scales of board 1: board 2 has the scales
of board 1 and lies `11 * XScale` to its right. -/
def mainLayout (x y xScale yScale : Int) (g1 g2 : Game) (s : Screen) (cScheme : ColourScheme)
    (stScheme : StyleScheme) : Session :=
  let b1 := NewBoard x y xScale yScale cScheme stScheme
  let b2 := NewBoard (b1.XPos + 11 * b1.XScale) b1.YPos b1.XScale b1.YScale cScheme stScheme
  NewSession b1 b2 g1 g2 s cScheme stScheme

/-- The session of `main` when the event loop starts: board 1 at (2, 1) with scales (2, 1),
both boards cleared, game 1 new and game 2 on the empty position.  The menu texts, which lie
to the right of board 2, are left out, and so are the colour numbers of `main`. -/
def sampleSession : Session :=
  let g := mainLayout 2 1 2 1 NewGame (NewGameFEN "8/8/8/8/8/8/8/8 w - - 0 1") blankScreen
    sampleColours (NewStyleScheme sampleColours)
  { g with Screen := g.Board2.Clear (g.Board1.Clear g.Screen) }

/-- Board 1 of `main`: origin (2, 1), scales (2, 1). -/
def sampleBoard : Board := NewBoard 2 1 2 1 sampleColours (NewStyleScheme sampleColours)

/-- A board with two display rows per square: origin (0, 0), scales (1, 2). -/
def tallBoard : Board := NewBoard 0 0 1 2 sampleColours (NewStyleScheme sampleColours)

/-- Rune widths to run the program on: one cell for every rune, the width of the runes of
the texts the program writes. -/
def sampleRuneWidth : Nat → Int := fun _ => 1

/-- The session of `main` after a first start-trigger has run `Start`. -/
def startedSession : Session := Session.Start sampleRuneWidth sampleSession

/-- The session of `main` after a first start-trigger: `Start`, then a playback of two
turns, 1. e4 e5: both moves are applied to game 1. -/
def playedSession : Session :=
  (({ startedSession with Game1 := startedSession.Game1.Move ⟨⟨4, 1⟩, ⟨4, 3⟩⟩ }).Move1to2
    ⟨⟨4, 1⟩, ⟨4, 3⟩⟩ 1)
  |> fun s => ({ s with Game1 := s.Game1.Move ⟨⟨4, 6⟩, ⟨4, 4⟩⟩ }).Move1to2 ⟨⟨4, 6⟩, ⟨4, 4⟩⟩ 2

/-- Legal moves to run a playback on: e2-e4 in the position of a new game, e7-e5 after
that.  Each is legal where it is offered; the engine lists more. -/
def sampleValidMoves (g : Game) : List Move :=
  if g.moves = [] then [⟨⟨4, 1⟩, ⟨4, 3⟩⟩] else [⟨⟨4, 6⟩, ⟨4, 4⟩⟩]


/-! ## Loops: invariants -/

theorem foldl_inv {σ ι : Type} (P : σ → Prop) (f : σ → ι → σ) (l : List ι)
    (h : ∀ i ∈ l, ∀ s, P s → P (f s i)) (s : σ) (hs : P s) : P (l.foldl f s) := by
  induction l generalizing s with
  | nil => exact hs
  | cons a t ih =>
    simp only [List.foldl_cons]
    exact ih (fun i hi => h i (List.mem_cons_of_mem a hi)) _
      (h a (List.mem_cons_self a t) s hs)

theorem foldl_est {σ ι : Type} (P : σ → Prop) (f : σ → ι → σ) (l : List ι) (i0 : ι)
    (hi0 : i0 ∈ l) (h0 : ∀ s, P (f s i0)) (h : ∀ i ∈ l, ∀ s, P s → P (f s i)) (s : σ) :
    P (l.foldl f s) := by
  induction l generalizing s with
  | nil => cases hi0
  | cons a t ih =>
    simp only [List.foldl_cons]
    rcases List.mem_cons.1 hi0 with rfl | hmem
    · exact foldl_inv P f t (fun i hi => h i (List.mem_cons_of_mem _ hi)) _ (h0 s)
    · exact ih hmem (fun i hi => h i (List.mem_cons_of_mem a hi)) _

theorem forLoop_inv {σ : Type} (P : σ → Prop) (lo hi : Int) (body : Int → σ → σ)
    (h : ∀ i, lo ≤ i → i ≤ hi → ∀ s, P s → P (body i s)) (s : σ) (hs : P s) :
    P (forLoop lo hi body s) := by
  unfold forLoop
  apply foldl_inv P _ _ _ s hs
  intro k hk t ht
  have hk' := List.mem_range.1 hk
  exact h _ (by omega) (by omega) t ht

theorem forLoop_est {σ : Type} (P : σ → Prop) (lo hi : Int) (body : Int → σ → σ) (i0 : Int)
    (hlo : lo ≤ i0) (hhi : i0 ≤ hi) (h0 : ∀ s, P (body i0 s))
    (h : ∀ i, lo ≤ i → i ≤ hi → ∀ s, P s → P (body i s)) (s : σ) :
    P (forLoop lo hi body s) := by
  unfold forLoop
  apply foldl_est P _ _ (i0 - lo).toNat
  · exact List.mem_range.2 (by omega)
  · intro t
    have e : lo + (((i0 - lo).toNat : Nat) : Int) = i0 := by omega
    rw [e]
    exact h0 t
  · intro k hk t ht
    have hk' := List.mem_range.1 hk
    exact h _ (by omega) (by omega) t ht

/-! ## Square names -/

theorem decodeName_squareName (c r : Int) (hc0 : 0 ≤ c) (hc : c ≤ 7) (hr0 : 0 ≤ r) (hr : r ≤ 7) :
    decodeName (squareName c r) = (c, r) := by
  interval_cases c <;> interval_cases r <;> rfl

theorem squareName_inj (c r c' r' : Int) (hc0 : 0 ≤ c) (hc : c ≤ 7) (hr0 : 0 ≤ r) (hr : r ≤ 7)
    (hc0' : 0 ≤ c') (hc' : c' ≤ 7) (hr0' : 0 ≤ r') (hr' : r' ≤ 7)
    (h : squareName c r = squareName c' r') : c = c' ∧ r = r' := by
  have e := congrArg decodeName h
  rw [decodeName_squareName c r hc0 hc hr0 hr,
    decodeName_squareName c' r' hc0' hc' hr0' hr'] at e
  exact ⟨congrArg Prod.fst e, congrArg Prod.snd e⟩

theorem find?_filter_ne (m : SquareMap) (k k' : String) (hk : k' ≠ k) :
    List.find? (fun e => decide (e.1 = k')) (m.filter (fun e => decide (e.1 ≠ k))) =
      List.find? (fun e => decide (e.1 = k')) m := by
  induction m with
  | nil => rfl
  | cons a t ih =>
    by_cases ha : a.1 = k
    · have hb : ¬ a.1 = k' := by rw [ha]; exact fun e => hk e.symm
      rw [List.filter_cons_of_neg (by simpa using ha), List.find?_cons_of_neg _ (by simpa using hb),
        ih]
    · rw [List.filter_cons_of_pos (by simpa using ha)]
      simp only [List.find?_cons]
      rw [ih]

theorem find?_set (m : SquareMap) (k k' : String) (v : Position) :
    (m.set k v).find? k' = if k' = k then some v else m.find? k' := by
  unfold SquareMap.set SquareMap.find?
  by_cases hk : k' = k
  · subst hk
    simp
  · have hk2 : ¬ k = k' := fun e => hk e.symm
    rw [List.find?_cons_of_neg _ (by simpa using hk2), find?_filter_ne m k k' hk, if_neg hk]


theorem foldl_range_ind {σ : Type} (P : Int → σ → Prop) (lo : Int) (body : Int → σ → σ) (s : σ)
    (n : Nat) (h0 : P lo s)
    (step : ∀ i, lo ≤ i → i < lo + n → ∀ t, P i t → P (i + 1) (body i t)) :
    P (lo + n) ((List.range n).foldl (fun acc (k : Nat) => body (lo + (k : Int)) acc) s) := by
  induction n with
  | zero => simpa using h0
  | succ m ih =>
    rw [List.range_succ, List.foldl_append]
    simp only [List.foldl_cons, List.foldl_nil]
    have e : lo + ((m + 1 : Nat) : Int) = lo + (m : Int) + 1 := by push_cast; ring
    rw [e]
    apply step _ (by omega) (by push_cast; omega)
    apply ih
    intro i hi1 hi2 t ht
    exact step i hi1 (by push_cast; omega) t ht

theorem forLoop_ind {σ : Type} (P : Int → σ → Prop) (lo hi : Int) (hle : lo ≤ hi + 1)
    (body : Int → σ → σ) (s : σ) (h0 : P lo s)
    (step : ∀ i, lo ≤ i → i ≤ hi → ∀ t, P i t → P (i + 1) (body i t)) :
    P (hi + 1) (forLoop lo hi body s) := by
  have key := foldl_range_ind P lo body s (hi + 1 - lo).toNat h0
    (fun i hi1 hi2 t ht => step i hi1 (by omega) t ht)
  have e : lo + (((hi + 1 - lo).toNat : Nat) : Int) = hi + 1 := by omega
  rw [e] at key
  exact key

theorem forLoop_succ {σ : Type} (lo hi : Int) (body : Int → σ → σ) (s : σ) (h : lo ≤ hi + 1) :
    forLoop lo (hi + 1) body s = body (hi + 1) (forLoop lo hi body s) := by
  unfold forLoop
  have e : (hi + 1 + 1 - lo).toNat = (hi + 1 - lo).toNat + 1 := by omega
  rw [e, List.range_succ, List.foldl_append]
  simp only [List.foldl_cons, List.foldl_nil]
  have e2 : lo + (((hi + 1 - lo).toNat : Nat) : Int) = hi + 1 := by omega
  rw [e2]

theorem forLoop_empty {σ : Type} (lo hi : Int) (body : Int → σ → σ) (s : σ) (h : hi < lo) :
    forLoop lo hi body s = s := by
  unfold forLoop
  have e : (hi + 1 - lo).toNat = 0 := by omega
  rw [e]
  rfl

theorem keys_set_of_not_mem (m : SquareMap) (k : String) (v : Position) (h : k ∉ m.keys) :
    (m.set k v).keys = k :: m.keys := by
  unfold SquareMap.set SquareMap.keys
  have : m.filter (fun e => decide (e.1 ≠ k)) = m := by
    apply List.filter_eq_self.2
    intro e he
    have : e.1 ≠ k := by
      intro hek
      apply h
      unfold SquareMap.keys
      rw [← hek]
      exact List.mem_map_of_mem Prod.fst he
    simpa using this
  rw [this]
  rfl

theorem squaresInv_set (row col : Int) (m : SquareMap) (hr0 : 0 ≤ row) (hr : row ≤ 7)
    (hc0 : 0 ≤ col) (hc : col ≤ 7) (h : squaresInv row col m) (v : Position) :
    squaresInv row (col + 1) (m.set (squareName col row) v) := by
  obtain ⟨hnd, hlen, hmem⟩ := h
  have hnew : squareName col row ∉ m.keys := by
    intro hin
    rcases (hmem _).1 hin with ⟨c, r, h1, h2, h3, h4, h5⟩ | ⟨c, h1, h2, h3⟩
    · have := (squareName_inj col row c r hc0 hc hr0 hr h1 h2 h3 (by omega) h5).2
      omega
    · have := (squareName_inj col row c row hc0 hc hr0 hr h1 (by omega) hr0 hr h3).1
      omega
  have hk := keys_set_of_not_mem m _ v hnew
  refine ⟨?_, ?_, ?_⟩
  · rw [hk]
    exact List.nodup_cons.2 ⟨hnew, hnd⟩
  · have : (m.set (squareName col row) v).length = m.length + 1 := by
      have := congrArg List.length hk
      simpa [SquareMap.keys] using this
    rw [this]
    push_cast
    omega
  · intro k
    rw [hk, List.mem_cons, hmem]
    constructor
    · rintro (rfl | h | ⟨c, h1, h2, h3⟩)
      · exact Or.inr ⟨col, hc0, by omega, rfl⟩
      · exact Or.inl h
      · exact Or.inr ⟨c, h1, by omega, h3⟩
    · rintro (h | ⟨c, h1, h2, h3⟩)
      · exact Or.inr (Or.inl h)
      · by_cases hcc : c = col
        · subst hcc
          exact Or.inl h3
        · exact Or.inr (Or.inr ⟨c, h1, by omega, h3⟩)

theorem squaresInv_next_row (row : Int) (hr0 : 0 ≤ row) (m : SquareMap)
    (h : squaresInv row 8 m) : squaresInv (row + 1) 0 m := by
  obtain ⟨hnd, hlen, hmem⟩ := h
  refine ⟨hnd, by omega, ?_⟩
  intro k
  rw [hmem]
  constructor
  · rintro (⟨c, r, h1, h2, h3, h4, h5⟩ | ⟨c, h1, h2, h3⟩)
    · exact Or.inl ⟨c, r, h1, h2, h3, by omega, h5⟩
    · exact Or.inl ⟨c, row, h1, by omega, hr0, by omega, h3⟩
  · rintro (⟨c, r, h1, h2, h3, h4, h5⟩ | ⟨c, h1, h2, h3⟩)
    · by_cases hrr : r = row
      · subst hrr
        exact Or.inr ⟨c, h1, by omega, h5⟩
      · exact Or.inl ⟨c, r, h1, h2, h3, by omega, h5⟩
    · omega

theorem squaresInv_final (x y xScale yScale : Int) :
    squaresInv 8 0 (NewBoard.squares x y xScale yScale) := by
  unfold NewBoard.squares
  apply forLoop_ind (fun row m => squaresInv row 0 m) 0 7 (by omega)
  · refine ⟨List.nodup_nil, by simp, ?_⟩
    intro k
    constructor
    · intro h
      cases h
    · rintro (⟨c, r, h1, h2, h3, h4, h5⟩ | ⟨c, h1, h2, h3⟩) <;> omega
  · intro row hr0 hr m hm
    apply squaresInv_next_row row hr0
    apply forLoop_ind (fun col m => squaresInv row col m) 0 7 (by omega) _ m hm
    intro col hc0 hc t ht
    exact squaresInv_set row col t hr0 hr hc0 hc ht _


theorem squaresInv_fresh (row col : Int) (m : SquareMap) (hr0 : 0 ≤ row) (hr : row ≤ 7)
    (hc0 : 0 ≤ col) (hc : col ≤ 7) (h : squaresInv row col m) : squareName col row ∉ m.keys := by
  obtain ⟨_, _, hmem⟩ := h
  intro hin
  rcases (hmem _).1 hin with ⟨c, r, h1, h2, h3, h4, h5⟩ | ⟨c, h1, h2, h3⟩
  · have := (squareName_inj col row c r hc0 hc hr0 hr h1 h2 h3 (by omega) h5).2
    omega
  · have := (squareName_inj col row c row hc0 hc hr0 hr h1 (by omega) hr0 hr h3).1
    omega

theorem squaresInv_rows (x y xScale yScale row : Int) (hr0 : 0 ≤ row) (hr : row ≤ 8) :
    squaresInv row 0 (forLoop 0 (row - 1) (fun row squares =>
      forLoop 0 7 (fun col squares =>
        squares.set (squareName col row)
          ⟨x + ((col + 1) * xScale), y + ((row + 1) * yScale)⟩) squares) []) := by
  have key := forLoop_ind (fun row m => squaresInv row 0 m) 0 (row - 1) (by omega)
    (fun row squares =>
      forLoop 0 7 (fun col squares =>
        squares.set (squareName col row)
          ⟨x + ((col + 1) * xScale), y + ((row + 1) * yScale)⟩) squares) []
    (by
      refine ⟨List.nodup_nil, by simp, ?_⟩
      intro k
      constructor
      · intro h
        cases h
      · rintro (⟨c, r, h1, h2, h3, h4, h5⟩ | ⟨c, h1, h2, h3⟩) <;> omega)
    (by
      intro r hr0' hr' m hm
      apply squaresInv_next_row r hr0'
      apply forLoop_ind (fun col m => squaresInv r col m) 0 7 (by omega) _ m hm
      intro col hc0 hc t ht
      exact squaresInv_set r col t hr0' (by omega) hc0 hc ht _)
  have e : row - 1 + 1 = row := by omega
  rw [e] at key
  exact key

theorem squaresInv_before (x y xScale yScale row col : Int) (hr0 : 0 ≤ row) (hr : row ≤ 7)
    (hc0 : 0 ≤ col) (hc : col ≤ 8) :
    squaresInv row col (NewBoard.squaresBefore x y xScale yScale row col) := by
  unfold NewBoard.squaresBefore
  have key := forLoop_ind (fun col m => squaresInv row col m) 0 (col - 1) (by omega)
    (fun col squares =>
      squares.set (squareName col row)
        ⟨x + ((col + 1) * xScale), y + ((row + 1) * yScale)⟩) _
    (squaresInv_rows x y xScale yScale row hr0 (by omega))
    (by
      intro c hc0' hc' t ht
      exact squaresInv_set row c t hr0 hr hc0' (by omega) ht _)
  have e : col - 1 + 1 = col := by omega
  rw [e] at key
  exact key

theorem squaresBefore_succ (x y xScale yScale row col : Int) (hc0 : 0 ≤ col) :
    NewBoard.squaresBefore x y xScale yScale row (col + 1) =
      (NewBoard.squaresBefore x y xScale yScale row col).set (squareName col row)
        ⟨x + ((col + 1) * xScale), y + ((row + 1) * yScale)⟩ := by
  unfold NewBoard.squaresBefore
  have e : col + 1 - 1 = col - 1 + 1 := by omega
  rw [e, forLoop_succ _ _ _ _ (by omega)]
  have e2 : col - 1 + 1 = col := by omega
  simp only [e2]

theorem squaresBefore_next_row (x y xScale yScale row : Int) (hr0 : 0 ≤ row) :
    NewBoard.squaresBefore x y xScale yScale (row + 1) 0 =
      NewBoard.squaresBefore x y xScale yScale row 8 := by
  unfold NewBoard.squaresBefore
  rw [forLoop_empty 0 (0 - 1) _ _ (by omega)]
  have e : row + 1 - 1 = row - 1 + 1 := by omega
  rw [e, forLoop_succ _ _ _ _ (by omega)]
  have e2 : row - 1 + 1 = row := by omega
  simp only [e2]
  rfl

theorem squares_eq_squaresBefore (x y xScale yScale : Int) :
    NewBoard.squares x y xScale yScale = NewBoard.squaresBefore x y xScale yScale 8 0 := by
  unfold NewBoard.squaresBefore NewBoard.squares
  rw [forLoop_empty 0 (0 - 1) _ _ (by omega)]
  rfl

theorem find?_squares (x y xScale yScale c r : Int) (hc0 : 0 ≤ c) (hc : c ≤ 7) (hr0 : 0 ≤ r)
    (hr : r ≤ 7) :
    (NewBoard.squares x y xScale yScale).find? (squareName c r) =
      some ⟨x + (c + 1) * xScale, y + (r + 1) * yScale⟩ := by
  unfold NewBoard.squares
  apply forLoop_est (fun m => SquareMap.find? m (squareName c r) = some _) 0 7 _ r hr0 hr
  · intro m
    apply forLoop_est (fun m => SquareMap.find? m (squareName c r) = some _) 0 7 _ c hc0 hc
    · intro t
      rw [find?_set, if_pos rfl]
    · intro i hi0 hi t ht
      rw [find?_set]
      split
      · next h =>
        have := (squareName_inj c r i r hc0 hc hr0 hr hi0 hi hr0 hr h).1
        rw [this]
      · exact ht
  · intro j hj0 hj m hm
    apply forLoop_inv (fun m => SquareMap.find? m (squareName c r) = some _) 0 7 _ _ m hm
    intro i hi0 hi t ht
    rw [find?_set]
    split
    · next h =>
      have := squareName_inj c r i j hc0 hc hr0 hr hi0 hi hj0 hj h
      rw [this.1, this.2]
    · exact ht

theorem mem_files (f : String) :
    f ∈ ["a", "b", "c", "d", "e", "f", "g", "h"] ↔
      ∃ c : Int, 0 ≤ c ∧ c ≤ 7 ∧ f = Column.LowerString c := by
  constructor
  · intro h
    simp only [List.mem_cons, List.mem_singleton, List.not_mem_nil, or_false] at h
    rcases h with rfl | rfl | rfl | rfl | rfl | rfl | rfl | rfl
    exacts [⟨0, by omega, by omega, rfl⟩, ⟨1, by omega, by omega, rfl⟩,
      ⟨2, by omega, by omega, rfl⟩, ⟨3, by omega, by omega, rfl⟩, ⟨4, by omega, by omega, rfl⟩,
      ⟨5, by omega, by omega, rfl⟩, ⟨6, by omega, by omega, rfl⟩, ⟨7, by omega, by omega, rfl⟩]
  · rintro ⟨c, h0, h7, rfl⟩
    interval_cases c <;> simp [Column.LowerString, index]

theorem mem_ranks (d : String) :
    d ∈ ["1", "2", "3", "4", "5", "6", "7", "8"] ↔
      ∃ r : Int, 0 ≤ r ∧ r ≤ 7 ∧ d = Row.String r := by
  constructor
  · intro h
    simp only [List.mem_cons, List.mem_singleton, List.not_mem_nil, or_false] at h
    rcases h with rfl | rfl | rfl | rfl | rfl | rfl | rfl | rfl
    exacts [⟨7, by omega, by omega, rfl⟩, ⟨6, by omega, by omega, rfl⟩,
      ⟨5, by omega, by omega, rfl⟩, ⟨4, by omega, by omega, rfl⟩, ⟨3, by omega, by omega, rfl⟩,
      ⟨2, by omega, by omega, rfl⟩, ⟨1, by omega, by omega, rfl⟩, ⟨0, by omega, by omega, rfl⟩]
  · rintro ⟨r, h0, h7, rfl⟩
    interval_cases r <;> simp [Row.String, index]

/-- C1: for every origin, every scale and every file index `c` and row index `r` in 0..7,
the board built by `NewBoard` maps the key `Column(c).LowerString()+Row(r).String()`,
which is the file letter number `c` followed by the rank digit `8 - r`, to the position
`(x + (c+1)*xScale, y + (r+1)*yScale)`; with origin (2,1) and scale (2,1) the key "a8"
maps to (4, 2) and the key "h1" to (18, 9). -/
theorem NewBoard_square_position (x y xScale yScale : Int) (cScheme : ColourScheme)
    (stScheme : StyleScheme) (c r : Int) (hc0 : 0 ≤ c) (hc : c ≤ 7) (hr0 : 0 ≤ r) (hr : r ≤ 7) :
    Column.LowerString c ++ Row.String r =
        String.mk [Char.ofNat (97 + c.toNat), Char.ofNat (48 + (8 - r.toNat))] ∧
      (NewBoard x y xScale yScale cScheme stScheme).Squares.find?
          (Column.LowerString c ++ Row.String r) =
        some ⟨x + (c + 1) * xScale, y + (r + 1) * yScale⟩ ∧
      (NewBoard x y xScale yScale cScheme stScheme).Squares.get
          (Column.LowerString c ++ Row.String r) =
        ⟨x + (c + 1) * xScale, y + (r + 1) * yScale⟩ ∧
      (NewBoard 2 1 2 1 cScheme stScheme).Squares.get "a8" = ⟨4, 2⟩ ∧
      (NewBoard 2 1 2 1 cScheme stScheme).Squares.get "h1" = ⟨18, 9⟩ := by
  have gen : ∀ (x y xs ys c r : Int), 0 ≤ c → c ≤ 7 → 0 ≤ r → r ≤ 7 →
      (NewBoard x y xs ys cScheme stScheme).Squares.get (squareName c r) =
        ⟨x + (c + 1) * xs, y + (r + 1) * ys⟩ := by
    intro x y xs ys c r h1 h2 h3 h4
    show SquareMap.get (NewBoard.squares x y xs ys) _ = _
    unfold SquareMap.get
    rw [find?_squares x y xs ys c r h1 h2 h3 h4]
    rfl
  refine ⟨?_, find?_squares x y xScale yScale c r hc0 hc hr0 hr, gen _ _ _ _ c r hc0 hc hr0 hr,
    ?_, ?_⟩
  · interval_cases c <;> interval_cases r <;> rfl
  · exact gen 2 1 2 1 0 0 (by omega) (by omega) (by omega) (by omega)
  · exact gen 2 1 2 1 7 7 (by omega) (by omega) (by omega) (by omega)

theorem NewBoard_square_position_witness :
    (NewBoard 2 1 2 1 sampleColours (NewStyleScheme sampleColours)).Squares.get
        (Column.LowerString 4 ++ Row.String 4) = ⟨2 + (4 + 1) * 2, 1 + (4 + 1) * 1⟩ :=
  (NewBoard_square_position 2 1 2 1 sampleColours (NewStyleScheme sampleColours) 4 4
    (by decide) (by decide) (by decide) (by decide)).2.2.1

/-- C2: the key function `(col, row) ↦ Column(col).LowerString()+Row(row).String()` is
injective on 0..7 × 0..7; the `Squares` map of `NewBoard` has exactly 64 entries, its keys
are pairwise distinct and are exactly the names made of a file letter a-h followed by a rank
digit 1-8; and no key is overwritten during construction: the map starts empty, each of the
64 assignments, in the order of the loops, finds its key absent from the map built so far,
and the map after the last one is `Squares`. -/
theorem NewBoard_squares_keys (x y xScale yScale : Int) (cScheme : ColourScheme)
    (stScheme : StyleScheme) :
    (∀ c r c' r' : Int, 0 ≤ c → c ≤ 7 → 0 ≤ r → r ≤ 7 → 0 ≤ c' → c' ≤ 7 → 0 ≤ r' → r' ≤ 7 →
        Column.LowerString c ++ Row.String r = Column.LowerString c' ++ Row.String r' →
        c = c' ∧ r = r') ∧
      (NewBoard x y xScale yScale cScheme stScheme).Squares.length = 64 ∧
      (NewBoard x y xScale yScale cScheme stScheme).Squares.keys.Nodup ∧
      (∀ k : String, k ∈ (NewBoard x y xScale yScale cScheme stScheme).Squares.keys ↔
        ∃ f ∈ ["a", "b", "c", "d", "e", "f", "g", "h"],
          ∃ d ∈ ["1", "2", "3", "4", "5", "6", "7", "8"], k = f ++ d) ∧
      (NewBoard.squaresBefore x y xScale yScale 0 0 = [] ∧
        (∀ row col : Int, 0 ≤ row → row ≤ 7 → 0 ≤ col → col ≤ 7 →
          Column.LowerString col ++ Row.String row ∉
              (NewBoard.squaresBefore x y xScale yScale row col).keys ∧
            NewBoard.squaresBefore x y xScale yScale row (col + 1) =
              (NewBoard.squaresBefore x y xScale yScale row col).set
                (Column.LowerString col ++ Row.String row)
                ⟨x + ((col + 1) * xScale), y + ((row + 1) * yScale)⟩) ∧
        (∀ row : Int, 0 ≤ row → row ≤ 7 →
          NewBoard.squaresBefore x y xScale yScale (row + 1) 0 =
            NewBoard.squaresBefore x y xScale yScale row 8) ∧
        (NewBoard x y xScale yScale cScheme stScheme).Squares =
          NewBoard.squaresBefore x y xScale yScale 8 0) := by
  obtain ⟨hnd, hlen, hmem⟩ := squaresInv_final x y xScale yScale
  refine ⟨?_, ?_, hnd, ?_, ⟨rfl, ?_, ?_, squares_eq_squaresBefore x y xScale yScale⟩⟩
  rotate_left 3
  · intro row col hr0 hr hc0 hc
    exact ⟨squaresInv_fresh row col _ hr0 hr hc0 hc
      (squaresInv_before x y xScale yScale row col hr0 hr hc0 (by omega)),
      squaresBefore_succ x y xScale yScale row col hc0⟩
  · intro row hr0 _
    exact squaresBefore_next_row x y xScale yScale row hr0
  · intro c r c' r' h1 h2 h3 h4 h5 h6 h7 h8 h
    exact squareName_inj c r c' r' h1 h2 h3 h4 h5 h6 h7 h8 h
  · show (NewBoard.squares x y xScale yScale).length = 64
    omega
  · intro k
    show k ∈ (NewBoard.squares x y xScale yScale).keys ↔ _
    rw [hmem]
    constructor
    · rintro (⟨c, r, h1, h2, h3, h4, rfl⟩ | ⟨c, h1, h2, h3⟩)
      · exact ⟨_, (mem_files _).2 ⟨c, h1, h2, rfl⟩, _, (mem_ranks _).2 ⟨r, h3, by omega, rfl⟩, rfl⟩
      · omega
    · rintro ⟨f, hf, d, hd, rfl⟩
      obtain ⟨c, h1, h2, rfl⟩ := (mem_files f).1 hf
      obtain ⟨r, h3, h4, rfl⟩ := (mem_ranks d).1 hd
      exact Or.inl ⟨c, r, h1, h2, h3, by omega, rfl⟩

theorem NewBoard_squares_keys_witness :
    (NewBoard 2 1 2 1 sampleColours (NewStyleScheme sampleColours)).Squares.length = 64 ∧
      (Column.LowerString 0 ++ Row.String 7 = Column.LowerString 0 ++ Row.String 7 →
        (0 : Int) = 0 ∧ (7 : Int) = 7) :=
  ⟨(NewBoard_squares_keys 2 1 2 1 sampleColours (NewStyleScheme sampleColours)).2.1,
    (NewBoard_squares_keys 2 1 2 1 sampleColours (NewStyleScheme sampleColours)).1 0 7 0 7
      (by decide) (by decide) (by decide) (by decide) (by decide) (by decide) (by decide)
      (by decide)⟩

/-! ## The colour of a square -/

theorem bool_eq_of_iff {a b : Bool} {p q : Prop} (ha : a = true ↔ p) (hb : b = true ↔ q)
    (h : p ↔ q) : a = b := by
  cases a <;> cases b <;> simp_all

theorem bool_eq_not_of_iff {a b : Bool} {p q : Prop} (ha : a = true ↔ p) (hb : b = true ↔ q)
    (h : p ↔ ¬ q) : a = !b := by
  cases a <;> cases b <;> simp_all

theorem tmod_Abs_two (d : Int) : Int.tmod (Abs d) 2 = 0 ↔ d % 2 = 0 := by
  unfold Abs
  split
  · rw [Int.tmod_eq_emod (by omega) (by omega)]
    omega
  · rw [Int.tmod_eq_emod (by omega) (by omega)]

theorem LightSquare_iff (b : Board) (col row : Int) :
    b.LightSquare col row = true ↔ (Int.tdiv col b.XScale - Int.tdiv row b.YScale) % 2 = 0 := by
  unfold Board.LightSquare
  rw [← tmod_Abs_two]
  split <;> simp_all

theorem LightSquare_grid (b : Board) (hx : 1 ≤ b.XScale) (hy : 1 ≤ b.YScale) (k j : Int) :
    b.LightSquare (k * b.XScale) (j * b.YScale) = true ↔ (k - j) % 2 = 0 := by
  rw [LightSquare_iff, Int.mul_tdiv_cancel k (by omega), Int.mul_tdiv_cancel j (by omega)]

/-- C7: `LightSquare` gives the standard colouring of the chessboard: on a board with both
scales at least 1, for the square of file number `f` in 1..8 (a = 1) and rank `r` in 1..8,
`LightSquare` at the coordinates of the square relative to the board (its position in
`Squares` minus the origin, which are `f * xScale` and `(9 - r) * yScale`, the column and row
`Clear` and `Fill` pass) is true exactly when `f + r` is odd; a1 is dark and h1 is light. -/
theorem LightSquare_standard_colouring (x y xScale yScale : Int) (cScheme : ColourScheme)
    (stScheme : StyleScheme) (hx : 1 ≤ xScale) (hy : 1 ≤ yScale) (f r : Int)
    (hf1 : 1 ≤ f) (hf8 : f ≤ 8) (hr1 : 1 ≤ r) (hr8 : r ≤ 8) :
    (((NewBoard x y xScale yScale cScheme stScheme).Squares.get
          (Column.LowerString (f - 1) ++ Row.String (8 - r))).XPos - x = f * xScale ∧
      ((NewBoard x y xScale yScale cScheme stScheme).Squares.get
          (Column.LowerString (f - 1) ++ Row.String (8 - r))).YPos - y = (9 - r) * yScale) ∧
    ((NewBoard x y xScale yScale cScheme stScheme).LightSquare
        (((NewBoard x y xScale yScale cScheme stScheme).Squares.get
          (Column.LowerString (f - 1) ++ Row.String (8 - r))).XPos - x)
        (((NewBoard x y xScale yScale cScheme stScheme).Squares.get
          (Column.LowerString (f - 1) ++ Row.String (8 - r))).YPos - y) = true ↔
      (f + r) % 2 = 1) ∧
    (NewBoard x y xScale yScale cScheme stScheme).LightSquare
        (((NewBoard x y xScale yScale cScheme stScheme).Squares.get "a1").XPos - x)
        (((NewBoard x y xScale yScale cScheme stScheme).Squares.get "a1").YPos - y) = false ∧
    (NewBoard x y xScale yScale cScheme stScheme).LightSquare
        (((NewBoard x y xScale yScale cScheme stScheme).Squares.get "h1").XPos - x)
        (((NewBoard x y xScale yScale cScheme stScheme).Squares.get "h1").YPos - y) = true := by
  have pos : ∀ c i : Int, 0 ≤ c → c ≤ 7 → 0 ≤ i → i ≤ 7 →
      (NewBoard x y xScale yScale cScheme stScheme).Squares.get (squareName c i) =
        ⟨x + (c + 1) * xScale, y + (i + 1) * yScale⟩ := by
    intro c i h1 h2 h3 h4
    show SquareMap.get (NewBoard.squares x y xScale yScale) _ = _
    unfold SquareMap.get
    rw [find?_squares x y xScale yScale c i h1 h2 h3 h4]
    rfl
  have light : ∀ c i : Int, 0 ≤ c → c ≤ 7 → 0 ≤ i → i ≤ 7 →
      ((NewBoard x y xScale yScale cScheme stScheme).LightSquare
        (((NewBoard x y xScale yScale cScheme stScheme).Squares.get (squareName c i)).XPos - x)
        (((NewBoard x y xScale yScale cScheme stScheme).Squares.get (squareName c i)).YPos - y)
          = true ↔ (c - i) % 2 = 0) := by
    intro c i h1 h2 h3 h4
    rw [pos c i h1 h2 h3 h4]
    have e1 : x + (c + 1) * xScale - x = (c + 1) * xScale := by ring
    have e2 : y + (i + 1) * yScale - y = (i + 1) * yScale := by ring
    simp only [e1, e2]
    have := LightSquare_grid (NewBoard x y xScale yScale cScheme stScheme) hx hy (c + 1) (i + 1)
    rw [show (NewBoard x y xScale yScale cScheme stScheme).XScale = xScale from rfl,
      show (NewBoard x y xScale yScale cScheme stScheme).YScale = yScale from rfl] at this
    rw [this]
    omega
  refine ⟨?_, ?_, ?_, ?_⟩
  · have := pos (f - 1) (8 - r) (by omega) (by omega) (by omega) (by omega)
    rw [show Column.LowerString (f - 1) ++ Row.String (8 - r) = squareName (f - 1) (8 - r)
      from rfl, this]
    constructor
    · show x + (f - 1 + 1) * xScale - x = f * xScale
      ring
    · show y + (8 - r + 1) * yScale - y = (9 - r) * yScale
      ring
  · have := light (f - 1) (8 - r) (by omega) (by omega) (by omega) (by omega)
    rw [show Column.LowerString (f - 1) ++ Row.String (8 - r) = squareName (f - 1) (8 - r)
      from rfl, this]
    omega
  · have := light 0 7 (by omega) (by omega) (by omega) (by omega)
    rw [show ("a1" : String) = squareName 0 7 from by decide]
    cases h : (NewBoard x y xScale yScale cScheme stScheme).LightSquare
        (((NewBoard x y xScale yScale cScheme stScheme).Squares.get (squareName 0 7)).XPos - x)
        (((NewBoard x y xScale yScale cScheme stScheme).Squares.get (squareName 0 7)).YPos - y)
    · rfl
    · have := this.1 h
      omega
  · have := light 7 7 (by omega) (by omega) (by omega) (by omega)
    rw [show ("h1" : String) = squareName 7 7 from by decide]
    exact this.2 (by omega)

theorem LightSquare_standard_colouring_witness :
    ((NewBoard 2 1 2 1 sampleColours (NewStyleScheme sampleColours)).LightSquare
        (((NewBoard 2 1 2 1 sampleColours (NewStyleScheme sampleColours)).Squares.get
          (Column.LowerString (5 - 1) ++ Row.String (8 - 4))).XPos - 2)
        (((NewBoard 2 1 2 1 sampleColours (NewStyleScheme sampleColours)).Squares.get
          (Column.LowerString (5 - 1) ++ Row.String (8 - 4))).YPos - 1) = true ↔
      ((5 : Int) + 4) % 2 = 1) :=
  (LightSquare_standard_colouring 2 1 2 1 sampleColours (NewStyleScheme sampleColours)
    (by decide) (by decide) 5 4 (by decide) (by decide) (by decide) (by decide)).2.1

/-- C8: on a board with `xScale = yScale = 1`, for every `col` and `row`,
`LightSquare(col, row)` equals `LightSquare(col+2, row)`, equals `LightSquare(col, row+2)`,
and is the negation of `LightSquare(col+1, row)` and of `LightSquare(col, row+1)`. -/
theorem LightSquare_checkerboard (b : Board) (hx : b.XScale = 1) (hy : b.YScale = 1)
    (col row : Int) :
    b.LightSquare col row = b.LightSquare (col + 2) row ∧
      b.LightSquare (col + 2) row = b.LightSquare col (row + 2) ∧
      b.LightSquare col row = b.LightSquare col (row + 2) ∧
      b.LightSquare (col + 1) row = !b.LightSquare col row ∧
      b.LightSquare col (row + 1) = !b.LightSquare col row := by
  have key : ∀ c r : Int, b.LightSquare c r = true ↔ (c - r) % 2 = 0 := by
    intro c r
    rw [LightSquare_iff, hx, hy, Int.tdiv_one, Int.tdiv_one]
  refine ⟨bool_eq_of_iff (key _ _) (key _ _) (by omega),
    bool_eq_of_iff (key _ _) (key _ _) (by omega), bool_eq_of_iff (key _ _) (key _ _) (by omega),
    bool_eq_not_of_iff (key _ _) (key _ _) (by omega),
    bool_eq_not_of_iff (key _ _) (key _ _) (by omega)⟩

theorem LightSquare_checkerboard_witness :
    (NewBoard 0 0 1 1 sampleColours (NewStyleScheme sampleColours)).LightSquare (3 + 1) 5 =
      !(NewBoard 0 0 1 1 sampleColours (NewStyleScheme sampleColours)).LightSquare 3 5 :=
  (LightSquare_checkerboard (NewBoard 0 0 1 1 sampleColours (NewStyleScheme sampleColours))
    rfl rfl 3 5).2.2.2.1

/-! ## Moving a piece from board 1 to board 2 -/

theorem Move1to2_Screen (g : Session) (move : Move) (turn : Int) :
    (g.Move1to2 move turn).Screen =
      SetContent
        (SetContent g.Screen (g.originPosition move).XPos (g.originPosition move).YPos
          Piece.Empty.WhiteRune []
          (g.Screen (g.originPosition move).XPos (g.originPosition move).YPos).style)
        (g.destinationPosition move).XPos (g.destinationPosition move).YPos
        (g.Screen (g.originPosition move).XPos (g.originPosition move).YPos).mainc []
        (if Int.tmod turn 2 = 0 then
          ((SetContent g.Screen (g.originPosition move).XPos (g.originPosition move).YPos
            Piece.Empty.WhiteRune []
            (g.Screen (g.originPosition move).XPos (g.originPosition move).YPos).style)
            (g.destinationPosition move).XPos (g.destinationPosition move).YPos).style.Foreground
              g.ColourScheme.BlackPiece
        else
          ((SetContent g.Screen (g.originPosition move).XPos (g.originPosition move).YPos
            Piece.Empty.WhiteRune []
            (g.Screen (g.originPosition move).XPos (g.originPosition move).YPos).style)
            (g.destinationPosition move).XPos (g.destinationPosition move).YPos).style.Foreground
              g.ColourScheme.WhitePiece) := rfl

theorem SetContent_same (s : Screen) (x y : Int) (m : Nat) (c : List Nat) (st : Style) :
    SetContent s x y m c st x y = ⟨m, c, st⟩ := by
  simp [SetContent]

theorem SetContent_other (s : Screen) (x y x' y' : Int) (m : Nat) (c : List Nat) (st : Style)
    (h : ¬ (x' = x ∧ y' = y)) : SetContent s x y m c st x' y' = s x' y' := by
  simp only [SetContent, if_neg h]

theorem SetContent_style_same (s : Screen) (x y x' y' : Int) (m : Nat) (c : List Nat) :
    (SetContent s x y m c (s x y).style x' y').style = (s x' y').style := by
  unfold SetContent
  split
  · next h => rw [h.1, h.2]
  · rfl

theorem tmod_two_eq_zero (t : Int) : Int.tmod t 2 = 0 ↔ t % 2 = 0 := by
  constructor
  · intro h
    exact Int.emod_eq_zero_of_dvd (Int.dvd_of_tmod_eq_zero h)
  · intro h
    exact Int.tmod_eq_zero_of_dvd (Int.dvd_of_emod_eq_zero h)

/-- C4: after `Move1to2(move, t)` the screen cell at `Board2.Squares[destination square]`
holds the glyph that was displayed at `Board1.Squares[origin square]` before the call, in the
style that cell of board 2 had before the call with its foreground replaced: by
`ColourScheme.WhitePiece` when `t` is odd, by `ColourScheme.BlackPiece` when `t` is even; the
background (and the emphasis) of the cell is unchanged.  So `t = 1` gives the white and
`t = 2` the black foreground on the same destination square. -/
theorem Move1to2_destination_cell (g : Session) (move : Move) (t : Int) :
    ((g.Move1to2 move t).Screen (g.destinationPosition move).XPos
        (g.destinationPosition move).YPos).mainc =
      (g.Screen (g.originPosition move).XPos (g.originPosition move).YPos).mainc ∧
    ((g.Move1to2 move t).Screen (g.destinationPosition move).XPos
        (g.destinationPosition move).YPos).style =
      (g.Screen (g.destinationPosition move).XPos (g.destinationPosition move).YPos).style.Foreground
        (if t % 2 = 1 then g.ColourScheme.WhitePiece else g.ColourScheme.BlackPiece) ∧
    (t % 2 = 1 → ((g.Move1to2 move t).Screen (g.destinationPosition move).XPos
        (g.destinationPosition move).YPos).style.fg = g.ColourScheme.WhitePiece) ∧
    (t % 2 = 0 → ((g.Move1to2 move t).Screen (g.destinationPosition move).XPos
        (g.destinationPosition move).YPos).style.fg = g.ColourScheme.BlackPiece) ∧
    ((g.Move1to2 move t).Screen (g.destinationPosition move).XPos
        (g.destinationPosition move).YPos).style.bg =
      (g.Screen (g.destinationPosition move).XPos (g.destinationPosition move).YPos).style.bg ∧
    ((g.Move1to2 move t).Screen (g.destinationPosition move).XPos
        (g.destinationPosition move).YPos).style.bold =
      (g.Screen (g.destinationPosition move).XPos (g.destinationPosition move).YPos).style.bold ∧
    ((g.Move1to2 move 1).Screen (g.destinationPosition move).XPos
        (g.destinationPosition move).YPos).style.fg = g.ColourScheme.WhitePiece ∧
    ((g.Move1to2 move 2).Screen (g.destinationPosition move).XPos
        (g.destinationPosition move).YPos).style.fg = g.ColourScheme.BlackPiece := by
  have key : ∀ u : Int, ((g.Move1to2 move u).Screen (g.destinationPosition move).XPos
        (g.destinationPosition move).YPos).style =
      (g.Screen (g.destinationPosition move).XPos (g.destinationPosition move).YPos).style.Foreground
        (if u % 2 = 1 then g.ColourScheme.WhitePiece else g.ColourScheme.BlackPiece) := by
    intro u
    rw [Move1to2_Screen, SetContent_same, SetContent_style_same]
    by_cases h : u % 2 = 0
    · rw [if_pos ((tmod_two_eq_zero u).2 h), if_neg (by omega)]
    · rw [if_neg (fun e => h ((tmod_two_eq_zero u).1 e)), if_pos (by omega)]
  refine ⟨?_, key t, ?_, ?_, ?_, ?_, ?_, ?_⟩
  · rw [Move1to2_Screen, SetContent_same]
  · intro h
    rw [key t, if_pos h]
    rfl
  · intro h
    rw [key t, if_neg (by omega)]
    rfl
  · rw [key t]
    rfl
  · rw [key t]
    rfl
  · rw [key 1]
    rfl
  · rw [key 2]
    rfl

theorem Move1to2_destination_cell_witness :
    ((sampleSession.Move1to2 ⟨⟨4, 1⟩, ⟨4, 3⟩⟩ 1).Screen
        (sampleSession.destinationPosition ⟨⟨4, 1⟩, ⟨4, 3⟩⟩).XPos
        (sampleSession.destinationPosition ⟨⟨4, 1⟩, ⟨4, 3⟩⟩).YPos).style.fg =
      sampleSession.ColourScheme.WhitePiece :=
  (Move1to2_destination_cell sampleSession ⟨⟨4, 1⟩, ⟨4, 3⟩⟩ 1).2.2.1 (by decide)

/-- C10: `Move1to2` changes at most two screen cells: every cell other than
`Board1.Squares[origin square]` and `Board2.Squares[destination square]` holds after the
call what it held before, and the two boards, their `Squares` maps and geometry included,
are unchanged. -/
theorem Move1to2_frame (g : Session) (move : Move) (t : Int) (x y : Int)
    (h1 : ¬ (x = (g.originPosition move).XPos ∧ y = (g.originPosition move).YPos))
    (h2 : ¬ (x = (g.destinationPosition move).XPos ∧ y = (g.destinationPosition move).YPos)) :
    (g.Move1to2 move t).Screen x y = g.Screen x y ∧
      (g.Move1to2 move t).Board1 = g.Board1 ∧ (g.Move1to2 move t).Board2 = g.Board2 := by
  refine ⟨?_, rfl, rfl⟩
  rw [Move1to2_Screen, SetContent_other _ _ _ _ _ _ _ _ h2, SetContent_other _ _ _ _ _ _ _ _ h1]

theorem moveKey (f k : Fin 8) :
    File.String f ++ Rank.String k = squareName ((f : Nat) : Int) (7 - ((k : Nat) : Int)) := by
  fin_cases f <;> fin_cases k <;> rfl

theorem get_squares (x y xScale yScale c r : Int) (hc0 : 0 ≤ c) (hc : c ≤ 7) (hr0 : 0 ≤ r)
    (hr : r ≤ 7) :
    (NewBoard.squares x y xScale yScale).get (squareName c r) =
      ⟨x + (c + 1) * xScale, y + (r + 1) * yScale⟩ := by
  unfold SquareMap.get
  rw [find?_squares x y xScale yScale c r hc0 hc hr0 hr]
  rfl

theorem mainLayout_originPosition (x y xScale yScale : Int) (g1 g2 : Game) (s : Screen)
    (cScheme : ColourScheme) (stScheme : StyleScheme) (move : Move) :
    (mainLayout x y xScale yScale g1 g2 s cScheme stScheme).originPosition move =
      ⟨x + (((move.S1.file : Nat) : Int) + 1) * xScale,
        y + (7 - ((move.S1.rank : Nat) : Int) + 1) * yScale⟩ := by
  show SquareMap.get (NewBoard.squares x y xScale yScale) _ = _
  rw [moveKey]
  have h1 := move.S1.file.isLt
  have h2 := move.S1.rank.isLt
  exact get_squares _ _ _ _ _ _ (by omega) (by omega) (by omega) (by omega)

theorem mainLayout_destinationPosition (x y xScale yScale : Int) (g1 g2 : Game) (s : Screen)
    (cScheme : ColourScheme) (stScheme : StyleScheme) (move : Move) :
    (mainLayout x y xScale yScale g1 g2 s cScheme stScheme).destinationPosition move =
      ⟨x + 11 * xScale + (((move.S2.file : Nat) : Int) + 1) * xScale,
        y + (7 - ((move.S2.rank : Nat) : Int) + 1) * yScale⟩ := by
  show SquareMap.get (NewBoard.squares (x + 11 * xScale) y xScale yScale) _ = _
  rw [moveKey]
  have h1 := move.S2.file.isLt
  have h2 := move.S2.rank.isLt
  exact get_squares _ _ _ _ _ _ (by omega) (by omega) (by omega) (by omega)

theorem mainLayout_positions_ne (x y xScale yScale : Int) (g1 g2 : Game) (s : Screen)
    (cScheme : ColourScheme) (stScheme : StyleScheme) (move : Move) (hx : xScale ≠ 0) :
    ((mainLayout x y xScale yScale g1 g2 s cScheme stScheme).originPosition move).XPos ≠
      ((mainLayout x y xScale yScale g1 g2 s cScheme stScheme).destinationPosition move).XPos := by
  rw [mainLayout_originPosition, mainLayout_destinationPosition]
  show x + (((move.S1.file : Nat) : Int) + 1) * xScale ≠
    x + 11 * xScale + (((move.S2.file : Nat) : Int) + 1) * xScale
  have h1 := move.S1.file.isLt
  have h2 := move.S2.file.isLt
  intro h
  have e : (((move.S2.file : Nat) : Int) + 11 - ((move.S1.file : Nat) : Int)) * xScale = 0 := by
    linarith
  rcases Int.mul_eq_zero.1 e with h0 | h0
  · omega
  · exact hx h0

theorem Move1to2_origin_cell (g : Session) (move : Move) (t : Int)
    (h : ¬ ((g.originPosition move).XPos = (g.destinationPosition move).XPos ∧
      (g.originPosition move).YPos = (g.destinationPosition move).YPos)) :
    (g.Move1to2 move t).Screen (g.originPosition move).XPos (g.originPosition move).YPos =
      ⟨Piece.Empty.WhiteRune, [],
        (g.Screen (g.originPosition move).XPos (g.originPosition move).YPos).style⟩ := by
  rw [Move1to2_Screen, SetContent_other _ _ _ _ _ _ _ _ h, SetContent_same]

/-- C5: in a session laid out as `main` lays it out (board 2 has the scales of board 1 and
lies `11 * XScale` beside it, `XScale` not zero), for every screen state, move and turn
numbers: after `Move1to2` the screen cell at `Board1.Squares[origin square]` holds the
empty-square glyph `Empty.WhiteRune`, a blank, in exactly the style it had before the call,
and a second `Move1to2` with the same move leaves that cell's glyph and style as they were
after the first. -/
theorem Move1to2_origin_cleared (x y xScale yScale : Int) (g1 g2 : Game) (s : Screen)
    (cScheme : ColourScheme) (stScheme : StyleScheme) (move : Move) (t t' : Int)
    (hx : xScale ≠ 0) :
    (((mainLayout x y xScale yScale g1 g2 s cScheme stScheme).Move1to2 move t).Screen
        ((mainLayout x y xScale yScale g1 g2 s cScheme stScheme).originPosition move).XPos
        ((mainLayout x y xScale yScale g1 g2 s cScheme stScheme).originPosition move).YPos).mainc
      = Piece.Empty.WhiteRune ∧
    Piece.Empty.WhiteRune = 0x20 ∧
    (((mainLayout x y xScale yScale g1 g2 s cScheme stScheme).Move1to2 move t).Screen
        ((mainLayout x y xScale yScale g1 g2 s cScheme stScheme).originPosition move).XPos
        ((mainLayout x y xScale yScale g1 g2 s cScheme stScheme).originPosition move).YPos).style
      = (s ((mainLayout x y xScale yScale g1 g2 s cScheme stScheme).originPosition move).XPos
          ((mainLayout x y xScale yScale g1 g2 s cScheme stScheme).originPosition move).YPos).style ∧
    ((((mainLayout x y xScale yScale g1 g2 s cScheme stScheme).Move1to2 move t).Move1to2 move
          t').Screen
        ((mainLayout x y xScale yScale g1 g2 s cScheme stScheme).originPosition move).XPos
        ((mainLayout x y xScale yScale g1 g2 s cScheme stScheme).originPosition move).YPos)
      = (((mainLayout x y xScale yScale g1 g2 s cScheme stScheme).Move1to2 move t).Screen
        ((mainLayout x y xScale yScale g1 g2 s cScheme stScheme).originPosition move).XPos
        ((mainLayout x y xScale yScale g1 g2 s cScheme stScheme).originPosition move).YPos) := by
  have hne := mainLayout_positions_ne x y xScale yScale g1 g2 s cScheme stScheme move hx
  have first := Move1to2_origin_cell (mainLayout x y xScale yScale g1 g2 s cScheme stScheme)
    move t (fun h => hne h.1)
  have second := Move1to2_origin_cell
    ((mainLayout x y xScale yScale g1 g2 s cScheme stScheme).Move1to2 move t) move t'
    (fun h => hne h.1)
  refine ⟨?_, rfl, ?_, ?_⟩
  · rw [first]
  · rw [first]
    rfl
  · have e : ((mainLayout x y xScale yScale g1 g2 s cScheme stScheme).Move1to2 move
        t).originPosition move =
        (mainLayout x y xScale yScale g1 g2 s cScheme stScheme).originPosition move := rfl
    rw [e] at second
    rw [second, first]

theorem Move1to2_origin_cleared_witness :
    (((mainLayout 2 1 2 1 NewGame NewGame blankScreen sampleColours
          (NewStyleScheme sampleColours)).Move1to2 ⟨⟨4, 1⟩, ⟨4, 3⟩⟩ 1).Screen
        ((mainLayout 2 1 2 1 NewGame NewGame blankScreen sampleColours
          (NewStyleScheme sampleColours)).originPosition ⟨⟨4, 1⟩, ⟨4, 3⟩⟩).XPos
        ((mainLayout 2 1 2 1 NewGame NewGame blankScreen sampleColours
          (NewStyleScheme sampleColours)).originPosition ⟨⟨4, 1⟩, ⟨4, 3⟩⟩).YPos).mainc
      = Piece.Empty.WhiteRune :=
  (Move1to2_origin_cleared 2 1 2 1 NewGame NewGame blankScreen sampleColours
    (NewStyleScheme sampleColours) ⟨⟨4, 1⟩, ⟨4, 3⟩⟩ 1 2 (by decide)).1

theorem sampleSession_originPosition_e2 :
    sampleSession.originPosition ⟨⟨4, 1⟩, ⟨4, 3⟩⟩ = ⟨12, 8⟩ := by
  have e : sampleSession.originPosition ⟨⟨4, 1⟩, ⟨4, 3⟩⟩ =
      (mainLayout 2 1 2 1 NewGame (NewGameFEN "8/8/8/8/8/8/8/8 w - - 0 1") blankScreen
        sampleColours (NewStyleScheme sampleColours)).originPosition ⟨⟨4, 1⟩, ⟨4, 3⟩⟩ := rfl
  rw [e, mainLayout_originPosition]
  decide

theorem sampleSession_destinationPosition_e4 :
    sampleSession.destinationPosition ⟨⟨4, 1⟩, ⟨4, 3⟩⟩ = ⟨34, 6⟩ := by
  have e : sampleSession.destinationPosition ⟨⟨4, 1⟩, ⟨4, 3⟩⟩ =
      (mainLayout 2 1 2 1 NewGame (NewGameFEN "8/8/8/8/8/8/8/8 w - - 0 1") blankScreen
        sampleColours (NewStyleScheme sampleColours)).destinationPosition ⟨⟨4, 1⟩, ⟨4, 3⟩⟩ := rfl
  rw [e, mainLayout_destinationPosition]
  decide

theorem Move1to2_frame_witness :
    (sampleSession.Move1to2 ⟨⟨4, 1⟩, ⟨4, 3⟩⟩ 1).Screen 0 0 = sampleSession.Screen 0 0 :=
  (Move1to2_frame sampleSession ⟨⟨4, 1⟩, ⟨4, 3⟩⟩ 1 0 0
    (by rw [sampleSession_originPosition_e2]; decide)
    (by rw [sampleSession_destinationPosition_e4]; decide)).1

/-! ## Clearing a board -/

theorem SetContent_keep (s : Screen) (x y X Y : Int) (m : Nat) (c : List Nat) (st : Style)
    (v : Cell) (hs : s X Y = v) (hv : X = x ∧ Y = y → (⟨m, c, st⟩ : Cell) = v) :
    SetContent s x y m c st X Y = v := by
  unfold SetContent
  split
  · next h => exact hv h
  · exact hs

theorem block_keep (xs ys X0 Y0 X Y : Int) (m : Nat) (st : Style) (v : Cell) (s : Screen)
    (hs : s X Y = v)
    (hv : X0 ≤ X → X < X0 + xs → Y0 ≤ Y → Y < Y0 + ys → (⟨m, [], st⟩ : Cell) = v) :
    forLoop 0 (xs - 1) (fun scCol s =>
      forLoop 0 (ys - 1) (fun scRow s =>
        SetContent s (X0 + scCol) (Y0 + scRow) m [] st) s) s X Y = v := by
  apply forLoop_inv (fun t : Screen => t X Y = v) _ _ _ _ s hs
  intro sc hsc0 hsc t ht
  apply forLoop_inv (fun t : Screen => t X Y = v) _ _ _ _ t ht
  intro sr hsr0 hsr u hu
  apply SetContent_keep _ _ _ _ _ _ _ _ _ hu
  rintro ⟨h1, h2⟩
  exact hv (by omega) (by omega) (by omega) (by omega)

theorem block_hit (xs ys X0 Y0 dx dy : Int) (m : Nat) (st : Style) (s : Screen)
    (hdx0 : 0 ≤ dx) (hdx : dx < xs) (hdy0 : 0 ≤ dy) (hdy : dy < ys) :
    forLoop 0 (xs - 1) (fun scCol s =>
      forLoop 0 (ys - 1) (fun scRow s =>
        SetContent s (X0 + scCol) (Y0 + scRow) m [] st) s) s (X0 + dx) (Y0 + dy) =
      ⟨m, [], st⟩ := by
  have step : ∀ (sc sr : Int) (u : Screen), u (X0 + dx) (Y0 + dy) = ⟨m, [], st⟩ →
      SetContent u (X0 + sc) (Y0 + sr) m [] st (X0 + dx) (Y0 + dy) = ⟨m, [], st⟩ := by
    intro sc sr u hu
    exact SetContent_keep _ _ _ _ _ _ _ _ _ hu (fun _ => rfl)
  apply forLoop_est (fun t : Screen => t (X0 + dx) (Y0 + dy) = ⟨m, [], st⟩) 0 (xs - 1) _ dx hdx0
    (by omega)
  · intro t
    apply forLoop_est (fun t : Screen => t (X0 + dx) (Y0 + dy) = ⟨m, [], st⟩) 0 (ys - 1) _ dy hdy0
      (by omega)
    · intro u
      exact SetContent_same _ _ _ _ _ _
    · intro sr _ _ u hu
      exact step _ _ u hu
  · intro sc _ _ t ht
    apply forLoop_inv (fun t : Screen => t (X0 + dx) (Y0 + dy) = ⟨m, [], st⟩) _ _ _ _ t ht
    intro sr _ _ u hu
    exact step _ _ u hu

theorem grid_unique (xs col k sc dx : Int) (hxs : 1 ≤ xs) (hcol : Int.tmod col xs = 0)
    (hsc0 : 0 ≤ sc) (hsc : sc < xs) (hdx0 : 0 ≤ dx) (hdx : dx < xs)
    (h : col + sc = k * xs + dx) : col = k * xs := by
  obtain ⟨q, rfl⟩ := Int.dvd_of_tmod_eq_zero hcol
  have : q = k := by
    by_contra hne
    rcases lt_or_gt_of_ne hne with h1 | h1
    · have : 0 ≤ (k - 1 - q) * xs := mul_nonneg (by omega) (by omega)
      nlinarith
    · have : 0 ≤ (q - 1 - k) * xs := mul_nonneg (by omega) (by omega)
      nlinarith
  rw [this, mul_comm]

theorem Clear_square_keep (b : Board) (hx : 1 ≤ b.XScale) (hy : 1 ≤ b.YScale)
    (k j dx dy : Int) (hdx0 : 0 ≤ dx) (hdx : dx < b.XScale) (hdy0 : 0 ≤ dy) (hdy : dy < b.YScale)
    (col row : Int) (hcol : Int.tmod col b.XScale = 0) (hrow : Int.tmod row b.YScale = 0)
    (t : Screen)
    (ht : t (b.XPos + k * b.XScale + dx) (b.YPos + j * b.YScale + dy) =
      ⟨0x20, [], if b.LightSquare (k * b.XScale) (j * b.YScale) then b.StyleScheme.WhiteOnLight
        else b.StyleScheme.WhiteOnDark⟩) :
    Board.Clear.square b col row t (b.XPos + k * b.XScale + dx) (b.YPos + j * b.YScale + dy) =
      ⟨0x20, [], if b.LightSquare (k * b.XScale) (j * b.YScale) then b.StyleScheme.WhiteOnLight
        else b.StyleScheme.WhiteOnDark⟩ := by
  have same : b.XPos + col ≤ b.XPos + k * b.XScale + dx →
      b.XPos + k * b.XScale + dx < b.XPos + col + b.XScale →
      b.YPos + row ≤ b.YPos + j * b.YScale + dy →
      b.YPos + j * b.YScale + dy < b.YPos + row + b.YScale →
      col = k * b.XScale ∧ row = j * b.YScale := by
    intro h1 h2 h3 h4
    constructor
    · exact grid_unique b.XScale col k (k * b.XScale + dx - col) dx hx hcol (by omega) (by omega)
        hdx0 hdx (by omega)
    · exact grid_unique b.YScale row j (j * b.YScale + dy - row) dy hy hrow (by omega) (by omega)
        hdy0 hdy (by omega)
  unfold Board.Clear.square
  split
  · next hl =>
    apply block_keep _ _ _ _ _ _ _ _ _ _ ht
    intro h1 h2 h3 h4
    obtain ⟨e1, e2⟩ := same h1 h2 h3 h4
    rw [← e1, ← e2, if_pos hl]
    rfl
  · next hl =>
    apply block_keep _ _ _ _ _ _ _ _ _ _ ht
    intro h1 h2 h3 h4
    obtain ⟨e1, e2⟩ := same h1 h2 h3 h4
    rw [← e1, ← e2, if_neg hl]
    rfl

theorem Clear_square_hit (b : Board) (k j dx dy : Int) (hdx0 : 0 ≤ dx) (hdx : dx < b.XScale)
    (hdy0 : 0 ≤ dy) (hdy : dy < b.YScale) (t : Screen) :
    Board.Clear.square b (k * b.XScale) (j * b.YScale) t
        (b.XPos + k * b.XScale + dx) (b.YPos + j * b.YScale + dy) =
      ⟨0x20, [], if b.LightSquare (k * b.XScale) (j * b.YScale) then b.StyleScheme.WhiteOnLight
        else b.StyleScheme.WhiteOnDark⟩ := by
  unfold Board.Clear.square
  split
  · rw [block_hit _ _ _ _ dx dy _ _ _ hdx0 hdx hdy0 hdy]
    rfl
  · rw [block_hit _ _ _ _ dx dy _ _ _ hdx0 hdx hdy0 hdy]
    rfl

theorem Clear_squares_cell (b : Board) (s : Screen) (hx : 1 ≤ b.XScale) (hy : 1 ≤ b.YScale)
    (k j dx dy : Int) (hk1 : 1 ≤ k) (hk8 : k ≤ 8) (hj1 : 1 ≤ j) (hj8 : j ≤ 8)
    (hdx0 : 0 ≤ dx) (hdx : dx < b.XScale) (hdy0 : 0 ≤ dy) (hdy : dy < b.YScale) :
    Board.Clear.squares b s (b.XPos + k * b.XScale + dx) (b.YPos + j * b.YScale + dy) =
      ⟨0x20, [], if b.LightSquare (k * b.XScale) (j * b.YScale) then b.StyleScheme.WhiteOnLight
        else b.StyleScheme.WhiteOnDark⟩ := by
  have hkx : 1 ≤ k * b.XScale := by nlinarith
  have hkx8 : k * b.XScale ≤ 8 * b.XScale := by nlinarith
  have hjy : 1 ≤ j * b.YScale := by nlinarith
  have hjy8 : j * b.YScale ≤ 8 * b.YScale := by nlinarith
  have keep : ∀ (col row : Int) (t : Screen),
      t (b.XPos + k * b.XScale + dx) (b.YPos + j * b.YScale + dy) =
        ⟨0x20, [], if b.LightSquare (k * b.XScale) (j * b.YScale) then b.StyleScheme.WhiteOnLight
          else b.StyleScheme.WhiteOnDark⟩ →
      (if Int.tmod col b.XScale = 0 ∧ Int.tmod row b.YScale = 0 then
          Board.Clear.square b col row t
        else t) (b.XPos + k * b.XScale + dx) (b.YPos + j * b.YScale + dy) =
        ⟨0x20, [], if b.LightSquare (k * b.XScale) (j * b.YScale) then b.StyleScheme.WhiteOnLight
          else b.StyleScheme.WhiteOnDark⟩ := by
    intro col row t ht
    split
    · next hc =>
      exact Clear_square_keep b hx hy k j dx dy hdx0 hdx hdy0 hdy col row hc.1 hc.2 t ht
    · exact ht
  unfold Board.Clear.squares
  apply forLoop_est (fun t : Screen => t (b.XPos + k * b.XScale + dx)
    (b.YPos + j * b.YScale + dy) = _) 1 (8 * b.XScale) _ (k * b.XScale) hkx hkx8
  · intro t
    apply forLoop_est (fun t : Screen => t (b.XPos + k * b.XScale + dx)
      (b.YPos + j * b.YScale + dy) = _) 1 (8 * b.YScale) _ (j * b.YScale) hjy hjy8
    · intro u
      have hc : Int.tmod (k * b.XScale) b.XScale = 0 ∧ Int.tmod (j * b.YScale) b.YScale = 0 :=
        ⟨Int.tmod_eq_zero_of_dvd (Dvd.intro_left k rfl),
          Int.tmod_eq_zero_of_dvd (Dvd.intro_left j rfl)⟩
      rw [if_pos hc]
      exact Clear_square_hit b k j dx dy hdx0 hdx hdy0 hdy u
    · intro row _ _ u hu
      exact keep _ row u hu
  · intro col _ _ t ht
    apply forLoop_inv (fun t : Screen => t (b.XPos + k * b.XScale + dx)
      (b.YPos + j * b.YScale + dy) = _) _ _ _ _ t ht
    intro row _ _ u hu
    exact keep col row u hu

theorem Clear_files_keep (b : Board) (s : Screen) (X Y : Int) (h : Y ≠ b.YPos + 9 * b.YScale) :
    Board.Clear.files b s X Y = s X Y := by
  unfold Board.Clear.files
  apply forLoop_inv (fun t : Screen => t X Y = s X Y) _ _ _ _ s rfl
  intro col _ _ t ht
  split
  · rw [SetContent_other _ _ _ _ _ _ _ _ (fun e => h e.2)]
    exact ht
  · exact ht

theorem Clear_ranks_keep (b : Board) (s : Screen) (X Y : Int) (h : X ≠ b.XPos) :
    Board.Clear.ranks b s X Y = s X Y := by
  unfold Board.Clear.ranks
  apply forLoop_inv (fun t : Screen => t X Y = s X Y) _ _ _ _ s rfl
  intro row _ _ t ht
  split
  · rw [SetContent_other _ _ _ _ _ _ _ _ (fun e => h e.1)]
    exact ht
  · exact ht

theorem Clear_inside (b : Board) (s : Screen) (hx : 1 ≤ b.XScale) (X Y : Int)
    (hX : b.XPos + b.XScale ≤ X) (hY : Y < b.YPos + 9 * b.YScale) :
    b.Clear s X Y = Board.Clear.squares b s X Y := by
  unfold Board.Clear
  rw [Clear_ranks_keep b _ X Y (by omega), Clear_files_keep b _ X Y (by omega)]

theorem block_in_rectangle (xs k dx : Int) (hxs : 1 ≤ xs) (hk1 : 1 ≤ k) (hk8 : k ≤ 8)
    (hdx0 : 0 ≤ dx) (hdx : dx < xs) : xs ≤ k * xs + dx ∧ k * xs + dx < 9 * xs := by
  constructor <;> nlinarith

theorem block_unique (xs k k' dx dx' : Int) (hdx0 : 0 ≤ dx) (hdx : dx < xs)
    (hdx0' : 0 ≤ dx') (hdx' : dx' < xs) (h : k' * xs + dx' = k * xs + dx) :
    k' = k ∧ dx' = dx := by
  have hk : k' = k := by
    by_contra hne
    rcases lt_or_gt_of_ne hne with h1 | h1
    · have : 0 ≤ (k - 1 - k') * xs := mul_nonneg (by omega) (by omega)
      nlinarith
    · have : 0 ≤ (k' - 1 - k) * xs := mul_nonneg (by omega) (by omega)
      nlinarith
  subst hk
  exact ⟨rfl, by omega⟩

theorem block_cover (xs a : Int) (hxs : 1 ≤ xs) (h1 : xs ≤ a) (h9 : a < 9 * xs) :
    ∃ k dx : Int, 1 ≤ k ∧ k ≤ 8 ∧ 0 ≤ dx ∧ dx < xs ∧ a = k * xs + dx := by
  refine ⟨a / xs, a % xs, ?_, ?_, Int.emod_nonneg a (by omega), Int.emod_lt_of_pos a (by omega), ?_⟩
  · exact (Int.le_ediv_iff_mul_le (by omega)).2 (by omega)
  · have : a / xs < 9 := (Int.ediv_lt_iff_lt_mul (by omega)).2 h9
    omega
  · have := Int.ediv_add_emod a xs
    rw [mul_comm]
    omega

theorem Clear_cell (b : Board) (s : Screen) (hx : 1 ≤ b.XScale) (hy : 1 ≤ b.YScale)
    (k j dx dy : Int) (hk1 : 1 ≤ k) (hk8 : k ≤ 8) (hj1 : 1 ≤ j) (hj8 : j ≤ 8)
    (hdx0 : 0 ≤ dx) (hdx : dx < b.XScale) (hdy0 : 0 ≤ dy) (hdy : dy < b.YScale) :
    b.Clear s (b.XPos + k * b.XScale + dx) (b.YPos + j * b.YScale + dy) =
      ⟨0x20, [], if b.LightSquare (k * b.XScale) (j * b.YScale) then b.StyleScheme.WhiteOnLight
        else b.StyleScheme.WhiteOnDark⟩ := by
  have rx := block_in_rectangle b.XScale k dx hx hk1 hk8 hdx0 hdx
  have ry := block_in_rectangle b.YScale j dy hy hj1 hj8 hdy0 hdy
  rw [Clear_inside b s hx _ _ (by omega) (by omega)]
  exact Clear_squares_cell b s hx hy k j dx dy hk1 hk8 hj1 hj8 hdx0 hdx hdy0 hdy

/-- C9: on a board with both scales at least 1 and for every screen state, after `Clear`
every display cell `(XPos + k*xScale + dx, YPos + j*yScale + dy)` with `k`, `j` in 1..8,
`0 ≤ dx < xScale`, `0 ≤ dy < yScale` holds the blank glyph in the style `WhiteOnLight` when
`LightSquare(k*xScale, j*yScale)` is true and in the style `WhiteOnDark` otherwise.  These
cells lie in the rectangle `[XPos+xScale, XPos+9*xScale) × [YPos+yScale, YPos+9*yScale)`,
every cell of the rectangle is one of them, and it is so for one `k`, `j`, `dx`, `dy`
only.  The loop of the file labels changes cells of the row `YPos + 9*yScale` only and the
loop of the rank labels cells of the column `XPos` only; that row and that column lie
outside the rectangle, so the labels overwrite none of these cells. -/
theorem Clear_paints_squares (b : Board) (s : Screen) (hx : 1 ≤ b.XScale) (hy : 1 ≤ b.YScale)
    (k j dx dy : Int) (hk1 : 1 ≤ k) (hk8 : k ≤ 8) (hj1 : 1 ≤ j) (hj8 : j ≤ 8)
    (hdx0 : 0 ≤ dx) (hdx : dx < b.XScale) (hdy0 : 0 ≤ dy) (hdy : dy < b.YScale) :
    b.Clear s (b.XPos + k * b.XScale + dx) (b.YPos + j * b.YScale + dy) =
        ⟨0x20, [], if b.LightSquare (k * b.XScale) (j * b.YScale) then b.StyleScheme.WhiteOnLight
          else b.StyleScheme.WhiteOnDark⟩ ∧
      (Piece.Empty.WhiteRune = 0x20 ∧ Piece.Empty.BlackRune = 0x20) ∧
      (b.XPos + b.XScale ≤ b.XPos + k * b.XScale + dx ∧
        b.XPos + k * b.XScale + dx < b.XPos + 9 * b.XScale ∧
        b.YPos + b.YScale ≤ b.YPos + j * b.YScale + dy ∧
        b.YPos + j * b.YScale + dy < b.YPos + 9 * b.YScale) ∧
      (∀ k' j' dx' dy' : Int, 0 ≤ dx' → dx' < b.XScale → 0 ≤ dy' → dy' < b.YScale →
        b.XPos + k' * b.XScale + dx' = b.XPos + k * b.XScale + dx →
        b.YPos + j' * b.YScale + dy' = b.YPos + j * b.YScale + dy →
        k' = k ∧ j' = j ∧ dx' = dx ∧ dy' = dy) ∧
      (∀ X Y : Int, b.XPos + b.XScale ≤ X → X < b.XPos + 9 * b.XScale →
        b.YPos + b.YScale ≤ Y → Y < b.YPos + 9 * b.YScale →
        ∃ k' j' dx' dy' : Int, 1 ≤ k' ∧ k' ≤ 8 ∧ 1 ≤ j' ∧ j' ≤ 8 ∧ 0 ≤ dx' ∧ dx' < b.XScale ∧
          0 ≤ dy' ∧ dy' < b.YScale ∧
          X = b.XPos + k' * b.XScale + dx' ∧ Y = b.YPos + j' * b.YScale + dy') ∧
      (∀ (t : Screen) (X Y : Int), Y ≠ b.YPos + 9 * b.YScale →
        Board.Clear.files b t X Y = t X Y) ∧
      (∀ (t : Screen) (X Y : Int), X ≠ b.XPos → Board.Clear.ranks b t X Y = t X Y) ∧
      ¬ (b.YPos + 9 * b.YScale < b.YPos + 9 * b.YScale) ∧ ¬ (b.XPos + b.XScale ≤ b.XPos) := by
  have rx := block_in_rectangle b.XScale k dx hx hk1 hk8 hdx0 hdx
  have ry := block_in_rectangle b.YScale j dy hy hj1 hj8 hdy0 hdy
  refine ⟨?_, ⟨rfl, rfl⟩, ⟨by omega, by omega, by omega, by omega⟩, ?_, ?_,
    fun t X Y h => Clear_files_keep b t X Y h, fun t X Y h => Clear_ranks_keep b t X Y h,
    by omega, by omega⟩
  · exact Clear_cell b s hx hy k j dx dy hk1 hk8 hj1 hj8 hdx0 hdx hdy0 hdy
  · intro k' j' dx' dy' h1 h2 h3 h4 hX hY
    have ex := block_unique b.XScale k k' dx dx' hdx0 hdx h1 h2 (by omega)
    have ey := block_unique b.YScale j j' dy dy' hdy0 hdy h3 h4 (by omega)
    exact ⟨ex.1, ey.1, ex.2, ey.2⟩
  · intro X Y hX1 hX2 hY1 hY2
    obtain ⟨k', dx', a1, a2, a3, a4, a5⟩ := block_cover b.XScale (X - b.XPos) hx (by omega)
      (by omega)
    obtain ⟨j', dy', c1, c2, c3, c4, c5⟩ := block_cover b.YScale (Y - b.YPos) hy (by omega)
      (by omega)
    exact ⟨k', j', dx', dy', a1, a2, c1, c2, a3, a4, c3, c4, by omega, by omega⟩

theorem Clear_paints_squares_witness :
    sampleBoard.Clear blankScreen (sampleBoard.XPos + 1 * sampleBoard.XScale + 1)
        (sampleBoard.YPos + 1 * sampleBoard.YScale + 0) =
      ⟨0x20, [], if sampleBoard.LightSquare (1 * sampleBoard.XScale) (1 * sampleBoard.YScale)
        then sampleBoard.StyleScheme.WhiteOnLight else sampleBoard.StyleScheme.WhiteOnDark⟩ :=
  (Clear_paints_squares sampleBoard blankScreen (by decide) (by decide) 1 1 1 0 (by decide)
    (by decide) (by decide) (by decide) (by decide) (by decide) (by decide) (by decide)).1

/-! ## Filling a board -/

theorem Fill_top_rank_keep (b : Board) (hy : 2 ≤ b.YScale) (s : Screen) (X : Int) :
    b.Fill s X (b.YPos + b.YScale) = s X (b.YPos + b.YScale) := by
  unfold Board.Fill
  apply forLoop_inv (fun t : Screen => t X (b.YPos + b.YScale) = s X (b.YPos + b.YScale)) _ _ _ _
    s rfl
  intro col _ _ t ht
  apply forLoop_inv (fun t : Screen => t X (b.YPos + b.YScale) = s X (b.YPos + b.YScale)) _ _ _ _
    t ht
  intro row _ _ u hu
  split
  · next hc =>
    have hrow : row ≠ 1 := by
      intro e
      have h1 := hc.2
      rw [e, Int.tmod_eq_of_lt (by omega) (by omega)] at h1
      omega
    unfold Board.Fill.square
    rw [if_neg hrow]
    split
    · split <;> rw [SetContent_other _ _ _ _ _ _ _ _ (fun e => by omega)] <;> exact hu
    · split
      · split <;> rw [SetContent_other _ _ _ _ _ _ _ _ (fun e => by omega)] <;> exact hu
      · split
        · split <;> rw [SetContent_other _ _ _ _ _ _ _ _ (fun e => by omega)] <;> exact hu
        · exact hu
  · exact hu

theorem Fill_square_keep (b : Board) (col row X Y : Int) (v : Cell) (t : Screen)
    (ht : t X Y = v)
    (hv : X = b.XPos + col → Y = b.YPos + row → Board.Fill.square b col row t X Y = v) :
    Board.Fill.square b col row t X Y = v := by
  by_cases h : X = b.XPos + col ∧ Y = b.YPos + row
  · exact hv h.1 h.2
  · unfold Board.Fill.square
    repeat' split
    all_goals first
      | exact ht
      | (rw [SetContent_other _ _ _ _ _ _ _ _ h]; exact ht)

theorem Fill_cell (b : Board) (s : Screen) (C R : Int) (v : Cell) (hC1 : 1 ≤ C)
    (hC8 : C ≤ 8 * b.XScale) (hC : Int.tmod C b.XScale = 0) (hR1 : 1 ≤ R)
    (hR8 : R ≤ 8 * b.YScale) (hR : Int.tmod R b.YScale = 0)
    (hv : ∀ t : Screen, Board.Fill.square b C R t (b.XPos + C) (b.YPos + R) = v) :
    b.Fill s (b.XPos + C) (b.YPos + R) = v := by
  have keep : ∀ (col row : Int) (t : Screen), t (b.XPos + C) (b.YPos + R) = v →
      (if Int.tmod col b.XScale = 0 ∧ Int.tmod row b.YScale = 0 then
        Board.Fill.square b col row t else t) (b.XPos + C) (b.YPos + R) = v := by
    intro col row t ht
    split
    · apply Fill_square_keep b col row _ _ v t ht
      intro h1 h2
      have e1 : col = C := by omega
      have e2 : row = R := by omega
      rw [e1, e2]
      exact hv t
    · exact ht
  unfold Board.Fill
  apply forLoop_est (fun t : Screen => t (b.XPos + C) (b.YPos + R) = v) 1 (8 * b.XScale) _ C hC1
    hC8
  · intro t
    apply forLoop_est (fun t : Screen => t (b.XPos + C) (b.YPos + R) = v) 1 (8 * b.YScale) _ R
      hR1 hR8
    · intro u
      rw [if_pos ⟨hC, hR⟩]
      exact hv u
    · intro row _ _ u hu
      exact keep C row u hu
  · intro col _ _ t ht
    apply forLoop_inv (fun t : Screen => t (b.XPos + C) (b.YPos + R) = v) _ _ _ _ t ht
    intro row _ _ u hu
    exact keep col row u hu

theorem tdiv_grid_pred (xs k : Int) (hxs : 1 ≤ xs) (hk : 1 ≤ k) :
    Int.tdiv (k * xs - 1) xs = k - 1 := by
  have h0 : 0 ≤ k * xs - 1 := by nlinarith
  rw [Int.tdiv_eq_ediv h0 (by omega)]
  have := (Int.ediv_emod_unique (a := k * xs - 1) (b := xs) (q := k - 1) (r := xs - 1)
    (by omega)).2 ⟨by ring, by omega, by omega⟩
  exact this.1

/-- What `Fill` does paint, on a board with both scales at least 1 and for the file number
`k` in 1..8: the black pawn in the second row of squares, the white pawn in the seventh, the
white back-rank piece in the eighth, each in the style of its colour on the colour
`LightSquare` gives; and, when `yScale` is 1, the black back-rank piece in the first. -/
theorem Fill_paints_ranks (b : Board) (s : Screen) (hx : 1 ≤ b.XScale) (hy : 1 ≤ b.YScale)
    (k : Int) (hk1 : 1 ≤ k) (hk8 : k ≤ 8) :
    b.Fill s (b.XPos + k * b.XScale) (b.YPos + 2 * b.YScale) =
        ⟨Piece.Pawn.BlackRune, [],
          if b.LightSquare (k * b.XScale) (2 * b.YScale) then b.StyleScheme.BlackOnLight
          else b.StyleScheme.BlackOnDark⟩ ∧
      b.Fill s (b.XPos + k * b.XScale) (b.YPos + 7 * b.YScale) =
        ⟨Piece.Pawn.WhiteRune, [],
          if b.LightSquare (k * b.XScale) (7 * b.YScale) then b.StyleScheme.WhiteOnLight
          else b.StyleScheme.WhiteOnDark⟩ ∧
      b.Fill s (b.XPos + k * b.XScale) (b.YPos + 8 * b.YScale) =
        ⟨(StartingRowAt (k - 1)).WhiteRune, [],
          if b.LightSquare (k * b.XScale) (8 * b.YScale) then b.StyleScheme.WhiteOnLight
          else b.StyleScheme.WhiteOnDark⟩ ∧
      (b.YScale = 1 →
        b.Fill s (b.XPos + k * b.XScale) (b.YPos + 1 * b.YScale) =
          ⟨(StartingRowAt (k - 1)).BlackRune, [],
            if b.LightSquare (k * b.XScale) (1 * b.YScale) then b.StyleScheme.BlackOnLight
            else b.StyleScheme.BlackOnDark⟩) := by
  have hkx : 1 ≤ k * b.XScale := by nlinarith
  have hkx8 : k * b.XScale ≤ 8 * b.XScale := by nlinarith
  have hC : Int.tmod (k * b.XScale) b.XScale = 0 := Int.tmod_eq_zero_of_dvd (Dvd.intro_left k rfl)
  have hR : ∀ n : Int, Int.tmod (n * b.YScale) b.YScale = 0 :=
    fun n => Int.tmod_eq_zero_of_dvd (Dvd.intro_left n rfl)
  have hd := tdiv_grid_pred b.XScale k hx hk1
  refine ⟨?_, ?_, ?_, ?_⟩
  · apply Fill_cell b s _ _ _ hkx hkx8 hC (by omega) (by omega) (hR 2)
    intro t
    unfold Board.Fill.square
    rw [if_neg (by omega), if_pos rfl]
    split <;> exact SetContent_same _ _ _ _ _ _
  · apply Fill_cell b s _ _ _ hkx hkx8 hC (by omega) (by omega) (hR 7)
    intro t
    unfold Board.Fill.square
    rw [if_neg (by omega), if_neg (by omega), if_pos rfl]
    split <;> exact SetContent_same _ _ _ _ _ _
  · apply Fill_cell b s _ _ _ hkx hkx8 hC (by omega) (by omega) (hR 8)
    intro t
    unfold Board.Fill.square
    rw [if_neg (by omega), if_neg (by omega), if_neg (by omega), if_pos rfl, hd]
    split <;> exact SetContent_same _ _ _ _ _ _
  · intro h1
    apply Fill_cell b s _ _ _ hkx hkx8 hC (by omega) (by omega) (hR 1)
    intro t
    unfold Board.Fill.square
    rw [if_pos (by omega), hd]
    split <;> exact SetContent_same _ _ _ _ _ _

theorem Fill_top_rank_blank (b : Board) (s : Screen) (hx : 1 ≤ b.XScale) (hy : 2 ≤ b.YScale)
    (k : Int) (hk1 : 1 ≤ k) (hk8 : k ≤ 8) :
    (b.Fill (b.Clear s) (b.XPos + k * b.XScale) (b.YPos + 1 * b.YScale)).mainc = 0x20 := by
  have h1 := Fill_top_rank_keep b hy (b.Clear s) (b.XPos + k * b.XScale)
  have h2 := Clear_cell b s hx (by omega) k 1 0 0 hk1 hk8 (by omega) (by omega)
    (by omega) (by omega) (by omega) (by omega)
  have e1 : b.YPos + 1 * b.YScale = b.YPos + b.YScale := by omega
  have e2 : b.XPos + k * b.XScale + 0 = b.XPos + k * b.XScale := by omega
  have e3 : b.YPos + 1 * b.YScale + 0 = b.YPos + b.YScale := by omega
  rw [e2, e3] at h2
  rw [e1, h1, h2]

/-- C3, at a board with two display rows per square (`xScale` 1, `yScale` 2): after
`Clear` and `Fill` the cell that `Squares` records for a8, the topmost rank, holds the blank
glyph and not the black rook, while the cell for a7 holds the black pawn: `Fill` tests the
row of the black back rank against `1`, not against `YScale`.  With one display row per
square (the board of `main`) the cell for a8 does hold the black rook. -/
theorem Fill_misses_black_back_rank :
    tallBoard.Squares.get "a8" = ⟨1, 2⟩ ∧
      (tallBoard.Fill (tallBoard.Clear blankScreen) (tallBoard.Squares.get "a8").XPos
        (tallBoard.Squares.get "a8").YPos).mainc = 0x20 ∧
      (StartingRowAt 0).BlackRune = 0x265c ∧
      (tallBoard.Fill (tallBoard.Clear blankScreen) 1 4).mainc = Piece.Pawn.BlackRune ∧
      (sampleBoard.Fill (sampleBoard.Clear blankScreen) 4 2).mainc = 0x265c := by
  have e : tallBoard.Squares.get "a8" = ⟨1, 2⟩ := by
    have := get_squares 0 0 1 2 0 0 (by omega) (by omega) (by omega) (by omega)
    rw [show ("a8" : String) = squareName 0 0 from by decide]
    exact this
  refine ⟨e, ?_, rfl, ?_, ?_⟩
  · rw [e]
    have h := Fill_top_rank_blank tallBoard blankScreen (by decide) (by decide) 1 (by decide)
      (by decide)
    have e1 : tallBoard.XPos + 1 * tallBoard.XScale = 1 := by decide
    have e2 : tallBoard.YPos + 1 * tallBoard.YScale = 2 := by decide
    rw [e1, e2] at h
    exact h
  · have h := (Fill_paints_ranks tallBoard (tallBoard.Clear blankScreen) (by decide) (by decide)
      1 (by decide) (by decide)).1
    have e1 : tallBoard.XPos + 1 * tallBoard.XScale = 1 := by decide
    have e2 : tallBoard.YPos + 2 * tallBoard.YScale = 4 := by decide
    rw [e1, e2] at h
    rw [h]
  · have h := (Fill_paints_ranks sampleBoard (sampleBoard.Clear blankScreen) (by decide)
      (by decide) 1 (by decide) (by decide)).2.2.2 (by decide)
    have e1 : sampleBoard.XPos + 1 * sampleBoard.XScale = 4 := by decide
    have e2 : sampleBoard.YPos + 1 * sampleBoard.YScale = 2 := by decide
    rw [e1, e2] at h
    rw [h]
    rfl

/-! ## Starting a game -/

theorem Start_Game1 (RuneWidth : Nat → Int) (g : Session) :
    (Session.Start RuneWidth g).Game1 = g.Game1 := rfl

theorem Move1to2_Game1 (g : Session) (move : Move) (t : Int) :
    (g.Move1to2 move t).Game1 = g.Game1 := rfl

theorem PlayRandomTurns_two (ValidMoves : Game → List Move) (Intn : Int → Nat → Nat)
    (s s' : Session) (h : Session.PlayRandomTurns ValidMoves Intn s 2 = some s') :
    ∃ m1 m2 : Move, s'.Game1 = (s.Game1.Move m1).Move m2 := by
  unfold Session.PlayRandomTurns at h
  have e : (1 : Int) + 1 = 2 := rfl
  rw [← e, forLoop_succ _ _ _ _ (by omega)] at h
  have e0 : (1 : Int) = 0 + 1 := rfl
  rw [e0, forLoop_succ _ _ _ _ (by omega), forLoop_empty _ _ _ _ (by omega)] at h
  simp only [Option.bind_eq_some, Option.map_eq_some', Option.some.injEq, exists_eq_left'] at h
  obtain ⟨s1, ⟨m1, _, rfl⟩, m2, _, rfl⟩ := h
  exact ⟨m1, m2, rfl⟩

/-- After a playback of two turns, `Start` leaves a game 1 that has two moves applied: no
start-trigger but the first finds game 1 in the position of a new game. -/
theorem Start_after_PlayRandomTurns (ValidMoves : Game → List Move) (Intn : Int → Nat → Nat)
    (RuneWidth : Nat → Int) (s s' : Session)
    (h : Session.PlayRandomTurns ValidMoves Intn s 2 = some s') :
    (Session.Start RuneWidth s').Game1.moves.length = s.Game1.moves.length + 2 ∧
      (Session.Start RuneWidth s').Game1 ≠ NewGame := by
  obtain ⟨m1, m2, e⟩ := PlayRandomTurns_two ValidMoves Intn s s' h
  have hl : (Session.Start RuneWidth s').Game1.moves.length = s.Game1.moves.length + 2 := by
    rw [Start_Game1, e]
    simp [Game.Move]
  refine ⟨hl, ?_⟩
  intro hn
  rw [hn] at hl
  simp [NewGame] at hl

theorem EmitStr_keep (RuneWidth : Nat → Int) (s : Screen) (x y : Int) (style : Style)
    (str : String) (X Y : Int) (h : Y ≠ y) : EmitStr RuneWidth s x y style str X Y = s X Y := by
  unfold EmitStr
  apply foldl_inv (fun acc : Screen × Int => acc.1 X Y = s X Y) _ _ _ (s, x) rfl
  intro ch _ acc hacc
  by_cases hw : RuneWidth ch.toNat = 0
  · simp only [hw, if_true]
    rw [SetContent_other _ _ _ _ _ _ _ _ (fun e => h e.2)]
    exact hacc
  · simp only [hw, if_false]
    rw [SetContent_other _ _ _ _ _ _ _ _ (fun e => h e.2)]
    exact hacc

/-- What `Start` paints on board 1 for the white pawns: on a board 1 with both scales at
least 1, the cell of file number `k` in the seventh row of squares holds the white pawn. -/
theorem Start_paints_white_pawn (RuneWidth : Nat → Int) (g : Session)
    (hx : 1 ≤ g.Board1.XScale) (hy : 1 ≤ g.Board1.YScale) (k : Int) (hk1 : 1 ≤ k) (hk8 : k ≤ 8) :
    (Session.Start RuneWidth g).Screen (g.Board1.XPos + k * g.Board1.XScale)
        (g.Board1.YPos + 7 * g.Board1.YScale) =
      ⟨Piece.Pawn.WhiteRune, [],
        if g.Board1.LightSquare (k * g.Board1.XScale) (7 * g.Board1.YScale) then
          g.Board1.StyleScheme.WhiteOnLight
        else g.Board1.StyleScheme.WhiteOnDark⟩ := by
  show EmitStr RuneWidth _ _ _ _ _ _ _ = _
  rw [EmitStr_keep _ _ _ _ _ _ _ _ (by omega)]
  exact (Fill_paints_ranks g.Board1 _ hx hy k hk1 hk8).2.1

/-- C6, at the session of `main` after a first start-trigger (`Start`, then a playback of
two turns, 1. e4 e5) when a second start-trigger runs `Start`: `Start` paints the starting
position on board 1, the white pawn on e2 included, and leaves game 1 as it is, with both
moves applied, e2-e4 first; that is not the position of a new game. -/
theorem Start_keeps_played_game :
    Session.PlayRandomTurns sampleValidMoves (fun _ _ => 0) startedSession 2 =
        some playedSession ∧
      startedSession.Game1 = NewGame ∧
      playedSession.Game1.moves = [⟨⟨4, 1⟩, ⟨4, 3⟩⟩, ⟨⟨4, 6⟩, ⟨4, 4⟩⟩] ∧
      (Session.Start sampleRuneWidth playedSession).Game1 = playedSession.Game1 ∧
      (Session.Start sampleRuneWidth playedSession).Game1 ≠ NewGame ∧
      playedSession.originPosition ⟨⟨4, 1⟩, ⟨4, 3⟩⟩ = ⟨12, 8⟩ ∧
      ((Session.Start sampleRuneWidth playedSession).Screen 12 8).mainc =
        Piece.Pawn.WhiteRune := by
  refine ⟨rfl, rfl, rfl, rfl, ?_, ?_, ?_⟩
  · rw [Start_Game1]
    intro h
    have := congrArg Game.moves h
    revert this
    decide
  · have e : playedSession.originPosition ⟨⟨4, 1⟩, ⟨4, 3⟩⟩ =
        sampleSession.originPosition ⟨⟨4, 1⟩, ⟨4, 3⟩⟩ := rfl
    rw [e, sampleSession_originPosition_e2]
  · have h := Start_paints_white_pawn sampleRuneWidth playedSession (by decide) (by decide) 5
      (by decide) (by decide)
    have e1 : playedSession.Board1.XPos + 5 * playedSession.Board1.XScale = 12 := by decide
    have e2 : playedSession.Board1.YPos + 7 * playedSession.Board1.YScale = 8 := by decide
    rw [e1, e2] at h
    rw [h]

end AliceChess
